import Mathlib

/-!
Verification of the self-adaptive Differential Evolution optimizer
(`src/lib.rs` of differential-evolution2).

Shallow embedding conventions:

* `f32` position components and control parameters are modelled as exact
  rationals (`ℚ`); every arithmetic expression of the source
  (`best3 + f * (best1 - best2)`, comparisons such as `draw < cr`) is kept
  verbatim over `ℚ`.
* The cost type `C` is a type parameter with Rust's `PartialOrd + Clone`
  rendered as `PartialOrder` with decidable `≤`, `<`, `=` (linear-order
  instances are special cases used where a claim needs totality).
* The injected random generator (`R: rand::Rng` plus the `rand` crate's
  `Uniform` distributions, both external collaborators of this crate) is
  modelled as an abstract state type `ρ` with a record `RngOps` of total
  sampling functions; each sampling call consumes the state sequentially,
  exactly in the order the source draws.
* The source stores the cost function inside `Settings` and never mutates
  it; the embedding passes it as an explicit argument to `eval`, which makes
  the fact that no other routine invokes it visible in the types.
* Rust panics/aborts are modelled with `Option`: the `assert!` in
  `Population::new` yields `none`, and the (only probabilistically
  terminating) resampling `while` loops of `update_positions` run on fuel,
  yielding `none` on exhaustion.
-/

namespace DiffEvol

/-- Rust `struct Individual<C>` from `src/lib.rs`: a candidate solution with
its position vector, optional cached cost and per-individual control
parameters `cr` and `f`. -/
structure Individual (C : Type) where
  pos : List ℚ
  cost : Option C
  cr : ℚ
  f : ℚ
deriving DecidableEq, Repr

instance {C : Type} : Inhabited (Individual C) := ⟨⟨[], none, 0, 0⟩⟩

/-- Abstract interface of the injected random source: `sampleNat r n` models
`Uniform::new(0, n).sample(rng)`, `sampleRange r lo hi` models
`Uniform::new(lo, hi).sample(rng)` and `genUnit` models `rng.gen::<f32>()`
(a draw in `[0,1)`). The state `ρ` is threaded sequentially. -/
structure RngOps (ρ : Type) where
  sampleNat : ρ → Nat → Nat × ρ
  sampleRange : ρ → ℚ → ℚ → ℚ × ρ
  genUnit : ρ → ℚ × ρ

/-- The random source respects the `Uniform::new(0, n)` range contract. -/
def RngOps.NatBounded {ρ : Type} (ops : RngOps ρ) : Prop :=
  ∀ r n, 0 < n → (ops.sampleNat r n).1 < n

/-- Rust `struct Settings<F, R, C>` (minus the cost function, which is
passed explicitly to `eval`; the source keeps it in the settings but only
`eval` ever reads it). -/
structure Settings (ρ : Type) where
  min_max_pos : List (ℚ × ℚ)
  cr_min_max : ℚ × ℚ
  cr_change_probability : ℚ
  f_min_max : ℚ × ℚ
  f_change_probability : ℚ
  pop_size : Nat
  rng : ρ
deriving Repr

/-- Rust `struct Population<F, R, C>`: the two parallel individual arrays,
the global-best bookkeeping, the cached distribution parameters
(`between_popsize` is `Uniform(0, pop_size)`, `between_dim` is
`Uniform(0, dim)`, `between_cr`/`between_f` are the `cr`/`f` ranges) and the
generation countdown.  The change probabilities are carried over from the
settings since `update_positions` reads them. -/
structure Population (ρ C : Type) where
  curr : List (Individual C)
  best : List (Individual C)
  best_idx : Option Nat
  best_cost_cache : Option C
  num_cost_evaluations : Nat
  dim : Nat
  pop_size : Nat
  cr_min_max : ℚ × ℚ
  f_min_max : ℚ × ℚ
  cr_change_probability : ℚ
  f_change_probability : ℚ
  pop_countdown : Nat
  rng : ρ
deriving DecidableEq, Repr

/-- One dimension of the initial position sampling loop of
`Population::new`: `ind.pos[d] = Uniform::new(min_max_pos[d].0, min_max_pos[d].1).sample(rng)`. -/
def initPos {ρ : Type} (ops : RngOps ρ) : List (ℚ × ℚ) → ρ → List ℚ × ρ
  | [], r => ([], r)
  | (lo, hi) :: rest, r =>
    let v := ops.sampleRange r lo hi
    let vs := initPos ops rest v.2
    (v.1 :: vs.1, vs.2)

/-- The initialization loop of `Population::new`: for each individual of
`curr`, draw `cr`, then `f`, then one position component per dimension. -/
def initIndividuals {ρ C : Type} (ops : RngOps ρ) (s : Settings ρ) :
    Nat → ρ → List (Individual C) × ρ
  | 0, r => ([], r)
  | k + 1, r =>
    let c := ops.sampleRange r s.cr_min_max.1 s.cr_min_max.2
    let f := ops.sampleRange c.2 s.f_min_max.1 s.f_min_max.2
    let p := initPos ops s.min_max_pos f.2
    let rest := initIndividuals ops s k p.2
    (⟨p.1, none, c.1, f.1⟩ :: rest.1, rest.2)

/-- Rust `Population::new`.  The `assert!(s.min_max_pos.len() >= 1)` abort is
modelled by `none`.  `best` is filled with clones of the dummy individual
(zero position vector, no cost, `cr = f = 0`); only `curr` is randomized. -/
def Population.new (C : Type) {ρ : Type} (ops : RngOps ρ) (s : Settings ρ) :
    Option (Population ρ C) :=
  if 1 ≤ s.min_max_pos.length then
    let dim := s.min_max_pos.length
    let init := initIndividuals (C := C) ops s s.pop_size s.rng
    some
      { curr := init.1
        best := List.replicate s.pop_size ⟨List.replicate dim 0, none, 0, 0⟩
        best_idx := none
        best_cost_cache := none
        num_cost_evaluations := 0
        dim := dim
        pop_size := s.pop_size
        cr_min_max := s.cr_min_max
        f_min_max := s.f_min_max
        cr_change_probability := s.cr_change_probability
        f_change_probability := s.f_change_probability
        pop_countdown := s.pop_size
        rng := init.2 }
  else none

/-- The swap test of `Population::update_best`:
`is_swapping = best.cost.is_none()`, and otherwise `curr.cost <= best.cost`
when both costs are present. -/
def swapCond {C : Type} [PartialOrder C] [DecidableRel ((· ≤ ·) : C → C → Prop)]
    (curr best : Individual C) : Bool :=
  best.cost.isNone ||
    (match curr.cost, best.cost with
     | some c, some b => decide (c ≤ b)
     | _, _ => false)

/-- The slot loop of `Population::update_best`, walking the two parallel
arrays and exchanging (`std::mem::swap`) the two individuals of a slot
whenever `swapCond` holds. -/
def updateBestGo {C : Type} [PartialOrder C] [DecidableRel ((· ≤ ·) : C → C → Prop)] :
    List (Individual C) → List (Individual C) →
      List (Individual C) × List (Individual C)
  | c :: cs, b :: bs =>
    let rest := updateBestGo cs bs
    if swapCond c b then (b :: rest.1, c :: rest.2) else (c :: rest.1, b :: rest.2)
  | cs, bs => (cs, bs)

/-- Rust `Population::update_best`. -/
def Population.update_best {ρ C : Type} [PartialOrder C] [DecidableRel ((· ≤ ·) : C → C → Prop)]
    (p : Population ρ C) : Population ρ C :=
  let r := updateBestGo p.curr p.best
  { p with curr := r.1, best := r.2 }

/-- One `sample`-then-`while`-resample block of `update_positions`
(`id1` uses `avoid = []`, `id2` avoids `id1`, `id3` avoids both).  The
rejection loop runs on fuel; exhaustion is `none`. -/
def sampleAvoid {ρ : Type} (ops : RngOps ρ) (n : Nat) (avoid : List Nat) :
    Nat → ρ → Option (Nat × ρ)
  | 0, r =>
    let v := ops.sampleNat r n
    if v.1 ∈ avoid then none else some v
  | fuel + 1, r =>
    let v := ops.sampleNat r n
    if v.1 ∈ avoid then sampleAvoid ops n avoid fuel v.2 else some v

/-- The control-parameter self-adaptation step of `update_positions`: with
probability `changeProb` (one `gen::<f32>()` draw) redraw from the range,
otherwise inherit the personal best's value. -/
def adaptParam {ρ : Type} (ops : RngOps ρ) (r : ρ) (changeProb : ℚ)
    (range : ℚ × ℚ) (inherited : ℚ) : ℚ × ρ :=
  let u := ops.genUnit r
  if u.1 < changeProb then ops.sampleRange u.2 range.1 range.2
  else (inherited, u.2)

/-- The per-dimension crossover loop of `update_positions`, starting at
dimension `d` with `k` dimensions to go.  The `||` of the source
short-circuits: the `gen::<f32>()` draw happens only when `d` is not the
forced mutation dimension. -/
def mutDims {ρ : Type} (ops : RngOps ρ) (forced : Nat) (cr f : ℚ)
    (bpos b1 b2 b3 : List ℚ) : Nat → Nat → ρ → List ℚ × ρ
  | _, 0, r => ([], r)
  | d, k + 1, r =>
    let t : Bool × ρ :=
      if d = forced then (true, r)
      else
        let u := ops.genUnit r
        (decide (u.1 < cr), u.2)
    let v : ℚ :=
      if t.1 then b3.getD d 0 + f * (b1.getD d 0 - b2.getD d 0)
      else bpos.getD d 0
    let rest := mutDims ops forced cr f bpos b1 b2 b3 (d + 1) k t.2
    (v :: rest.1, rest.2)

/-- The random-generator state after the crossover loop of
`update_positions` has processed `k` dimensions starting at dimension `s`
(one `gen::<f32>()` draw is consumed per non-forced dimension; the forced
dimension consumes none because `||` short-circuits). -/
def rngFrom {ρ : Type} (ops : RngOps ρ) (forced : Nat) : Nat → Nat → ρ → ρ
  | _, 0, r => r
  | s, k + 1, r =>
    rngFrom ops forced (s + 1) k (if s = forced then r else (ops.genUnit r).2)

/-- The body of one iteration of the slot loop of `update_positions`:
draw `id1`, `id2`, `id3` (pairwise distinct by rejection), adapt `cr` then
`f` from `best[i]`, draw the forced mutation dimension, then run the
per-dimension crossover against `best[i].pos` and the three chosen personal
bests; cost is reset to `None`.  Nothing of the previous `curr[i]` survives
(the source overwrites every field it reads). -/
def updateSlot {ρ C : Type} (ops : RngOps ρ) (fuel n dim : Nat)
    (crRange fRange : ℚ × ℚ) (crProb fProb : ℚ)
    (bestArr : List (Individual C)) (bi : Individual C) (r : ρ) :
    Option (Individual C × ρ) :=
  match sampleAvoid ops n [] fuel r with
  | none => none
  | some i1 =>
    match sampleAvoid ops n [i1.1] fuel i1.2 with
    | none => none
    | some i2 =>
      match sampleAvoid ops n [i1.1, i2.1] fuel i2.2 with
      | none => none
      | some i3 =>
        let cr := adaptParam ops i3.2 crProb crRange bi.cr
        let f := adaptParam ops cr.2 fProb fRange bi.f
        let forced := ops.sampleNat f.2 dim
        let m := mutDims ops forced.1 cr.1 f.1 bi.pos
          (bestArr.getD i1.1 default).pos (bestArr.getD i2.1 default).pos
          (bestArr.getD i3.1 default).pos 0 dim forced.2
        some (⟨m.1, none, cr.1, f.1⟩, m.2)

/-- The slot loop of `update_positions`: slot `i` with `k` slots to go,
reading the fixed `best` array, producing the new `curr` array. -/
def updatePosGo {ρ C : Type} (ops : RngOps ρ) (fuel n dim : Nat)
    (crRange fRange : ℚ × ℚ) (crProb fProb : ℚ)
    (bestArr : List (Individual C)) :
    Nat → Nat → ρ → Option (List (Individual C) × ρ)
  | _, 0, r => some ([], r)
  | i, k + 1, r =>
    match updateSlot ops fuel n dim crRange fRange crProb fProb bestArr
        (bestArr.getD i default) r with
    | none => none
    | some s =>
      match updatePosGo ops fuel n dim crRange fRange crProb fProb bestArr
          (i + 1) k s.2 with
      | none => none
      | some rest => some (s.1 :: rest.1, rest.2)

/-- Rust `Population::update_positions`.  The loop runs over
`self.curr.len()` slots; the index distribution is `Uniform(0, pop_size)`
and the dimension distribution `Uniform(0, dim)`. -/
def Population.update_positions {ρ C : Type} (ops : RngOps ρ) (fuel : Nat)
    (p : Population ρ C) : Option (Population ρ C) :=
  (updatePosGo ops fuel p.pop_size p.dim p.cr_min_max p.f_min_max
      p.cr_change_probability p.f_change_probability p.best 0
      p.curr.length p.rng).map
    (fun x => { p with curr := x.1, rng := x.2 })

/-- The unconditional tail of `Population::eval`: decrement the countdown,
evaluate the cost function once on `curr[pop_countdown].pos`, store the
result, bump the evaluation counter, and update the global-best cache/index
on strict improvement (`PartialOrd::lt`) or first evaluation. -/
def evalCore {ρ C : Type} [PartialOrder C] [DecidableRel ((· < ·) : C → C → Prop)]
    (costf : List ℚ → C) (p : Population ρ C) : Population ρ C :=
  let idx := p.pop_countdown - 1
  let ind := p.curr.getD idx default
  let cost := costf ind.pos
  let improved : Bool :=
    match p.best_cost_cache with
    | none => true
    | some bc => decide (cost < bc)
  { p with
    pop_countdown := idx
    curr := p.curr.set idx { ind with cost := some cost }
    num_cost_evaluations := p.num_cost_evaluations + 1
    best_cost_cache := if improved then some cost else p.best_cost_cache
    best_idx := if improved then some idx else p.best_idx }

/-- Rust `Population::eval`: on `pop_countdown == 0` first run one
selection pass (`update_best`) and one reproduction pass
(`update_positions`) and reset the countdown to `curr.len()`, then perform
the single cost evaluation. -/
def Population.eval {ρ C : Type} [PartialOrder C] [DecidableRel ((· ≤ ·) : C → C → Prop)]
    [DecidableRel ((· < ·) : C → C → Prop)] (ops : RngOps ρ) (fuel : Nat) (costf : List ℚ → C)
    (p : Population ρ C) : Option (Population ρ C) :=
  if p.pop_countdown = 0 then
    (Population.update_positions ops fuel p.update_best).map
      (fun p2 => evalCore costf { p2 with pop_countdown := p2.curr.length })
  else some (evalCore costf p)

/-- The position handed to the cost function by the next `eval` call
(defined without the cost function: the boundary passes never consult it). -/
def Population.evalArg {ρ C : Type} [PartialOrder C] [DecidableRel ((· ≤ ·) : C → C → Prop)]
    (ops : RngOps ρ) (fuel : Nat) (p : Population ρ C) : Option (List ℚ) :=
  if p.pop_countdown = 0 then
    (Population.update_positions ops fuel p.update_best).map
      (fun p2 => (p2.curr.getD (p2.curr.length - 1) default).pos)
  else some ((p.curr.getD (p.pop_countdown - 1) default).pos)

/-- Rust `Population::best`: resolve the global best at query time from
slot `best_idx`.  The source `unwrap`s; the impossible double-`None` branch
is rendered as `none` and proved unreachable (claim C10). -/
def Population.bestPair {ρ C : Type} [PartialOrder C] [DecidableRel ((· < ·) : C → C → Prop)]
    (p : Population ρ C) : Option (C × List ℚ) :=
  match p.best_idx with
  | none => none
  | some bi =>
    let cu := p.curr.getD bi default
    let be := p.best.getD bi default
    match cu.cost, be.cost with
    | none, none => none
    | none, some b => some (b, be.pos)
    | some c, none => some (c, cu.pos)
    | some c, some b => if c < b then some (c, cu.pos) else some (b, be.pos)

/-- Rust `PopIter::next`: forward to `eval`, then yield a clone of
`best_cost_cache` as the item. -/
def PopIter.next {ρ C : Type} [PartialOrder C] [DecidableRel ((· ≤ ·) : C → C → Prop)]
    [DecidableRel ((· < ·) : C → C → Prop)] (ops : RngOps ρ) (fuel : Nat) (costf : List ℚ → C)
    (p : Population ρ C) : Option (Population ρ C × Option C) :=
  (Population.eval ops fuel costf p).map (fun q => (q, q.best_cost_cache))

/-- The state after constructing from `s` and calling `eval` `k` times. -/
def traj (C : Type) {ρ : Type} [PartialOrder C] [DecidableRel ((· ≤ ·) : C → C → Prop)]
    [DecidableRel ((· < ·) : C → C → Prop)] (ops : RngOps ρ) (fuel : Nat) (costf : List ℚ → C)
    (s : Settings ρ) : Nat → Option (Population ρ C)
  | 0 => Population.new C ops s
  | k + 1 => (traj C ops fuel costf s k).bind (Population.eval ops fuel costf)

/-- A cost value present somewhere in the population (in `curr` or in
`best`). -/
def CostIn {ρ C : Type} (p : Population ρ C) (x : C) : Prop :=
  some x ∈ p.curr.map Individual.cost ∨ some x ∈ p.best.map Individual.cost

/-- The order-free part of the `Population` state invariant: both arrays
have length `pop_size` (positive, since construction requires at least one
bound pair and the `rand` crate's `Uniform::new(0, 0)` aborts construction
for an empty population), the countdown is at most `pop_size`, every slot
already evaluated in the running generation (index `≥ pop_countdown`) has a
`curr` cost, `best_idx`/`best_cost_cache` are present together and exactly
once an evaluation has happened, and the slot `best_idx` points to holds a
cost — on the `curr` side only if it was evaluated in this generation,
otherwise on the `best` side. -/
def WInv {ρ C : Type} (p : Population ρ C) : Prop :=
  0 < p.pop_size ∧
  p.curr.length = p.pop_size ∧
  p.best.length = p.pop_size ∧
  p.pop_countdown ≤ p.pop_size ∧
  (∀ k, p.pop_countdown ≤ k → k < p.pop_size →
    ((p.curr.getD k default).cost).isSome = true) ∧
  (p.best_idx = none ↔ p.best_cost_cache = none) ∧
  (p.best_idx = none ↔ p.num_cost_evaluations = 0) ∧
  (∀ i, p.best_idx = some i → i < p.pop_size ∧
    ((((p.curr.getD i default).cost).isSome = true ∧ p.pop_countdown ≤ i) ∨
     ((p.best.getD i default).cost).isSome = true))

/-- The order-dependent part of the state invariant (provable for total
cost orders): when no cost has been cached the population holds no cost at
all, the cached cost is a lower bound for every cost in the population, and
the slot `best_idx` points to holds exactly the cached cost. -/
def StrongInv {ρ C : Type} [PartialOrder C] (p : Population ρ C) : Prop :=
  WInv p ∧
  (p.best_cost_cache = none → ∀ x, ¬ CostIn p x) ∧
  (∀ c, p.best_cost_cache = some c → ∀ x, CostIn p x → c ≤ x) ∧
  (∀ i, p.best_idx = some i → ∃ c, p.best_cost_cache = some c ∧
    (((p.curr.getD i default).cost = some c ∧ p.pop_countdown ≤ i) ∨
     (p.best.getD i default).cost = some c))

/-- The invariant of the degenerate one-dimensional `(0,0)`-bounds scenario:
one dimension, every position vector (current and personal best) is `[0]`,
every cost present in the population is the cost of `[0]`, and the cached
best cost (when present) is the cost of `[0]`. -/
def ZInvP {ρ C : Type} (costf : List ℚ → C) (p : Population ρ C) : Prop :=
  p.dim = 1 ∧
  (∀ ind ∈ p.curr, ind.pos = [0]) ∧
  (∀ ind ∈ p.best, ind.pos = [0]) ∧
  (∀ x, CostIn p x → x = costf [0]) ∧
  (p.best_cost_cache = none ∨ p.best_cost_cache = some (costf [0]))

/-- A concrete executable random source: the state is a queue of rationals;
`sampleNat` maps the head `q` to `⌊q⌋ % n`, `sampleRange` to
`lo + q * (hi - lo)`, `genUnit` yields the head itself. -/
def listRng : RngOps (List ℚ) where
  sampleNat r n :=
    match r with
    | [] => (0, [])
    | q :: t => (q.floor.toNat % n, t)
  sampleRange r lo hi :=
    match r with
    | [] => (lo, [])
    | q :: t => (lo + q * (hi - lo), t)
  genUnit r :=
    match r with
    | [] => (0, [])
    | q :: t => (q, t)

/-- A second concrete random source with a different state type: the same
queue of rationals paired with a draw counter.  Used to exercise the
determinism claim across two distinct source implementations. -/
def listRngCtr : RngOps (List ℚ × Nat) where
  sampleNat r n :=
    match r.1 with
    | [] => (0, ([], r.2 + 1))
    | q :: t => (q.floor.toNat % n, (t, r.2 + 1))
  sampleRange r lo hi :=
    match r.1 with
    | [] => (lo, ([], r.2 + 1))
    | q :: t => (lo + q * (hi - lo), (t, r.2 + 1))
  genUnit r :=
    match r.1 with
    | [] => (0, ([], r.2 + 1))
    | q :: t => (q, (t, r.2 + 1))

/-- Relational lifting to `Option`: both absent, or both present and
related. -/
def OptRel {α β : Type} (Q : α → β → Prop) : Option α → Option β → Prop
  | none, none => True
  | some a, some b => Q a b
  | _, _ => False

/-- Two random sources produce the same stream: related states answer every
query with the same value and move to related states.  This is the
"identical seeded random sources" hypothesis of the determinism claim,
stated for two possibly different source implementations. -/
def RngSim {ρ₁ ρ₂ : Type} (ops₁ : RngOps ρ₁) (ops₂ : RngOps ρ₂)
    (R : ρ₁ → ρ₂ → Prop) : Prop :=
  ∀ r₁ r₂, R r₁ r₂ →
    (∀ n, (ops₁.sampleNat r₁ n).1 = (ops₂.sampleNat r₂ n).1 ∧
      R (ops₁.sampleNat r₁ n).2 (ops₂.sampleNat r₂ n).2) ∧
    (∀ lo hi, (ops₁.sampleRange r₁ lo hi).1 =
        (ops₂.sampleRange r₂ lo hi).1 ∧
      R (ops₁.sampleRange r₁ lo hi).2 (ops₂.sampleRange r₂ lo hi).2) ∧
    ((ops₁.genUnit r₁).1 = (ops₂.genUnit r₂).1 ∧
      R (ops₁.genUnit r₁).2 (ops₂.genUnit r₂).2)

/-- Two populations agree on every observable field, and their random
source states are related. -/
def PopRel {ρ₁ ρ₂ C : Type} (R : ρ₁ → ρ₂ → Prop)
    (p₁ : Population ρ₁ C) (p₂ : Population ρ₂ C) : Prop :=
  p₁.curr = p₂.curr ∧ p₁.best = p₂.best ∧ p₁.best_idx = p₂.best_idx ∧
  p₁.best_cost_cache = p₂.best_cost_cache ∧
  p₁.num_cost_evaluations = p₂.num_cost_evaluations ∧
  p₁.dim = p₂.dim ∧ p₁.pop_size = p₂.pop_size ∧
  p₁.cr_min_max = p₂.cr_min_max ∧ p₁.f_min_max = p₂.f_min_max ∧
  p₁.cr_change_probability = p₂.cr_change_probability ∧
  p₁.f_change_probability = p₂.f_change_probability ∧
  p₁.pop_countdown = p₂.pop_countdown ∧
  R p₁.rng p₂.rng

theorem listRng_natBounded : listRng.NatBounded := by
  intro r n hn
  cases r with
  | nil => simpa [listRng] using hn
  | cons q t => simpa [listRng] using Nat.mod_lt _ hn

theorem initIndividuals_length {ρ C : Type} (ops : RngOps ρ) (s : Settings ρ) :
    ∀ (k : Nat) (r : ρ), (initIndividuals (C := C) ops s k r).1.length = k := by
  intro k
  induction k with
  | zero => intro r; simp [initIndividuals]
  | succ k ih => intro r; simp [initIndividuals, ih]

theorem initIndividuals_cost_none {ρ C : Type} (ops : RngOps ρ) (s : Settings ρ) :
    ∀ (k : Nat) (r : ρ), ∀ ind ∈ (initIndividuals (C := C) ops s k r).1,
      ind.cost = none := by
  intro k
  induction k with
  | zero => intro r; simp [initIndividuals]
  | succ k ih =>
    intro r ind hm
    simp only [initIndividuals, List.mem_cons] at hm
    rcases hm with hm | hm
    · rw [hm]
    · exact ih _ ind hm

theorem new_fields {ρ C : Type} {s : Settings ρ} {p : Population ρ C} (ops : RngOps ρ)
    (h : Population.new C ops s = some p) :
    p.pop_countdown = s.pop_size ∧ p.pop_size = s.pop_size ∧
    p.curr.length = s.pop_size ∧ p.best.length = s.pop_size ∧
    p.best_idx = none ∧ p.best_cost_cache = none ∧
    p.num_cost_evaluations = 0 ∧ p.dim = s.min_max_pos.length ∧
    (∀ ind ∈ p.curr, ind.cost = none) ∧
    (∀ ind ∈ p.best, ind.cost = none) := by
  unfold Population.new at h
  split at h
  · have h' := Option.some.inj h
    subst h'
    refine ⟨rfl, rfl, initIndividuals_length ops s _ _, by simp, rfl, rfl,
      rfl, rfl, initIndividuals_cost_none ops s _ _, ?_⟩
    intro ind hm
    rw [List.eq_of_mem_replicate hm]
  · exact Option.noConfusion h

/-- Claim C9: constructing with an empty bounds sequence aborts (no partial
population is produced); with any non-empty bounds sequence construction
succeeds, performs no cost evaluation (the evaluation counter is 0 — note
`Population.new` does not even receive a cost function) and leaves every
individual's cost absent, in `curr` as well as in `best`. -/
theorem claim_C9_new_spec (C : Type) {ρ : Type} (ops : RngOps ρ)
    (s : Settings ρ) :
    (Population.new C ops s = none ↔ s.min_max_pos = []) ∧
    (∀ p, Population.new C ops s = some p →
      p.num_cost_evaluations = 0 ∧
      (∀ ind ∈ p.curr, ind.cost = none) ∧
      (∀ ind ∈ p.best, ind.cost = none)) := by
  constructor
  · unfold Population.new
    by_cases h : 1 ≤ s.min_max_pos.length
    · rw [if_pos h]
      simp only [reduceCtorEq, false_iff]
      intro hnil
      rw [hnil] at h
      simp at h
    · rw [if_neg h]
      simp only [true_iff]
      cases hl : s.min_max_pos with
      | nil => rfl
      | cons a l => rw [hl] at h; simp at h
  · intro p hp
    obtain ⟨-, -, -, -, -, -, h7, -, h9, h10⟩ := new_fields ops hp
    exact ⟨h7, h9, h10⟩

/-- Claim C9 witness: at a concrete one-dimensional settings value the
construction succeeds with evaluation counter 0 and all costs absent, and at
the empty-bounds settings it returns `none`. -/
theorem claim_C9_witness :
    (Population.new ℚ listRng
        ⟨[], (0, 1), 1/2, (0, 1), 1/2, 2, []⟩ = none) ∧
    (∀ p, Population.new ℚ listRng
        ⟨[(0, 10)], (0, 1), 1/2, (0, 1), 1/2, 2, [1, 2]⟩ = some p →
      p.num_cost_evaluations = 0 ∧
      (∀ ind ∈ p.curr, ind.cost = none) ∧
      (∀ ind ∈ p.best, ind.cost = none)) :=
  ⟨(claim_C9_new_spec ℚ listRng ⟨[], (0, 1), 1/2, (0, 1), 1/2, 2, []⟩).1.mpr
      rfl,
   (claim_C9_new_spec ℚ listRng
      ⟨[(0, 10)], (0, 1), 1/2, (0, 1), 1/2, 2, [1, 2]⟩).2⟩

section Structural

variable {ρ C : Type} [PartialOrder C]
variable [DecidableRel ((· ≤ ·) : C → C → Prop)]
variable [DecidableRel ((· < ·) : C → C → Prop)]

theorem updateBestGo_fst_length (c b : List (Individual C)) :
    (updateBestGo c b).1.length = c.length := by
  induction c generalizing b with
  | nil => cases b <;> simp [updateBestGo]
  | cons x cs ih =>
    cases b with
    | nil => simp [updateBestGo]
    | cons y bs =>
      simp only [updateBestGo]
      split <;> simp [ih]

theorem updateBestGo_snd_length (c b : List (Individual C)) :
    (updateBestGo c b).2.length = b.length := by
  induction c generalizing b with
  | nil => cases b <;> simp [updateBestGo]
  | cons x cs ih =>
    cases b with
    | nil => simp [updateBestGo]
    | cons y bs =>
      simp only [updateBestGo]
      split <;> simp [ih]

theorem updateBestGo_getD (c b : List (Individual C)) (i : Nat)
    (hc : i < c.length) (hb : i < b.length) :
    (updateBestGo c b).1.getD i default =
      (if swapCond (c.getD i default) (b.getD i default) then b.getD i default
       else c.getD i default) ∧
    (updateBestGo c b).2.getD i default =
      (if swapCond (c.getD i default) (b.getD i default) then c.getD i default
       else b.getD i default) := by
  induction c generalizing b i with
  | nil => simp at hc
  | cons x cs ih =>
    cases b with
    | nil => simp at hb
    | cons y bs =>
      cases i with
      | zero =>
        by_cases hsw : swapCond x y = true <;> simp [updateBestGo, hsw]
      | succ i =>
        have h := ih bs i (by simpa using hc) (by simpa using hb)
        by_cases hsw : swapCond x y = true <;>
          simpa [updateBestGo, hsw, List.getD] using h

theorem mem_updateBestGo_fst {a : Individual C} (c b : List (Individual C)) :
    a ∈ (updateBestGo c b).1 → a ∈ c ∨ a ∈ b := by
  induction c generalizing b with
  | nil => cases b <;> simp [updateBestGo]
  | cons x cs ih =>
    cases b with
    | nil => simp [updateBestGo]
    | cons y bs =>
      intro h
      by_cases hsw : swapCond x y = true <;> simp [updateBestGo, hsw] at h <;>
        rcases h with h | h
      · exact Or.inr (by simp [h])
      · rcases ih bs h with h | h
        · exact Or.inl (List.mem_cons_of_mem _ h)
        · exact Or.inr (List.mem_cons_of_mem _ h)
      · exact Or.inl (by simp [h])
      · rcases ih bs h with h | h
        · exact Or.inl (List.mem_cons_of_mem _ h)
        · exact Or.inr (List.mem_cons_of_mem _ h)

theorem mem_updateBestGo_snd {a : Individual C} (c b : List (Individual C)) :
    a ∈ (updateBestGo c b).2 → a ∈ c ∨ a ∈ b := by
  induction c generalizing b with
  | nil => cases b <;> simp [updateBestGo]
  | cons x cs ih =>
    cases b with
    | nil => simp [updateBestGo]
    | cons y bs =>
      intro h
      by_cases hsw : swapCond x y = true <;> simp [updateBestGo, hsw] at h <;>
        rcases h with h | h
      · exact Or.inl (by simp [h])
      · rcases ih bs h with h | h
        · exact Or.inl (List.mem_cons_of_mem _ h)
        · exact Or.inr (List.mem_cons_of_mem _ h)
      · exact Or.inr (by simp [h])
      · rcases ih bs h with h | h
        · exact Or.inl (List.mem_cons_of_mem _ h)
        · exact Or.inr (List.mem_cons_of_mem _ h)

theorem update_best_fields (p : Population ρ C) :
    p.update_best.best_idx = p.best_idx ∧
    p.update_best.best_cost_cache = p.best_cost_cache ∧
    p.update_best.num_cost_evaluations = p.num_cost_evaluations ∧
    p.update_best.pop_size = p.pop_size ∧
    p.update_best.dim = p.dim ∧
    p.update_best.pop_countdown = p.pop_countdown ∧
    p.update_best.rng = p.rng ∧
    p.update_best.curr.length = p.curr.length ∧
    p.update_best.best.length = p.best.length := by
  refine ⟨rfl, rfl, rfl, rfl, rfl, rfl, rfl, ?_, ?_⟩
  · exact updateBestGo_fst_length p.curr p.best
  · exact updateBestGo_snd_length p.curr p.best

theorem updateSlot_inv {fuel n dim : Nat} {crR fR : ℚ × ℚ} {crP fP : ℚ}
    {bArr : List (Individual C)} {bi : Individual C} {r : ρ}
    {y : Individual C × ρ} (ops : RngOps ρ)
    (h : updateSlot ops fuel n dim crR fR crP fP bArr bi r = some y) :
    y.1.cost = none := by
  unfold updateSlot at h
  split at h
  · exact Option.noConfusion h
  split at h
  · exact Option.noConfusion h
  split at h
  · exact Option.noConfusion h
  have h' := Option.some.inj h
  rw [← h']

theorem updatePosGo_length {fuel n dim : Nat} {crR fR : ℚ × ℚ} {crP fP : ℚ}
    {bArr : List (Individual C)} (ops : RngOps ρ) :
    ∀ (k i : Nat) (r : ρ) (x : List (Individual C) × ρ),
      updatePosGo ops fuel n dim crR fR crP fP bArr i k r = some x →
      x.1.length = k := by
  intro k
  induction k with
  | zero =>
    intro i r x h
    simp only [updatePosGo, Option.some.injEq] at h
    simp [← h]
  | succ k ih =>
    intro i r x h
    simp only [updatePosGo] at h
    split at h
    · exact Option.noConfusion h
    rename_i y h1
    split at h
    · exact Option.noConfusion h
    rename_i z h2
    have h := Option.some.inj h
    have := ih (i + 1) y.2 z h2
    simp [← h, this]

theorem updatePosGo_cost_none {fuel n dim : Nat} {crR fR : ℚ × ℚ}
    {crP fP : ℚ} {bArr : List (Individual C)} (ops : RngOps ρ) :
    ∀ (k i : Nat) (r : ρ) (x : List (Individual C) × ρ),
      updatePosGo ops fuel n dim crR fR crP fP bArr i k r = some x →
      ∀ ind ∈ x.1, ind.cost = none := by
  intro k
  induction k with
  | zero =>
    intro i r x h
    simp only [updatePosGo, Option.some.injEq] at h
    simp [← h]
  | succ k ih =>
    intro i r x h
    simp only [updatePosGo] at h
    split at h
    · exact Option.noConfusion h
    rename_i y h1
    split at h
    · exact Option.noConfusion h
    rename_i z h2
    have h := Option.some.inj h
    intro ind hm
    rw [← h] at hm
    rcases List.mem_cons.mp hm with hm | hm
    · rw [hm]; exact updateSlot_inv ops h1
    · exact ih (i + 1) y.2 z h2 ind hm

theorem update_positions_eq {p q : Population ρ C} (ops : RngOps ρ)
    (fuel : Nat) (h : Population.update_positions ops fuel p = some q) :
    ∃ x, updatePosGo ops fuel p.pop_size p.dim p.cr_min_max p.f_min_max
        p.cr_change_probability p.f_change_probability p.best 0
        p.curr.length p.rng = some x ∧
      q = { p with curr := x.1, rng := x.2 } := by
  unfold Population.update_positions at h
  cases h1 : updatePosGo ops fuel p.pop_size p.dim p.cr_min_max p.f_min_max
      p.cr_change_probability p.f_change_probability p.best 0
      p.curr.length p.rng with
  | none => rw [h1] at h; simp at h
  | some x =>
    rw [h1] at h
    simp only [Option.map_some', Option.some.injEq] at h
    exact ⟨x, rfl, h.symm⟩

theorem update_positions_fields {p q : Population ρ C} (ops : RngOps ρ)
    (fuel : Nat) (h : Population.update_positions ops fuel p = some q) :
    q.best = p.best ∧ q.best_idx = p.best_idx ∧
    q.best_cost_cache = p.best_cost_cache ∧
    q.num_cost_evaluations = p.num_cost_evaluations ∧
    q.pop_size = p.pop_size ∧ q.dim = p.dim ∧
    q.pop_countdown = p.pop_countdown ∧
    q.curr.length = p.curr.length ∧
    (∀ ind ∈ q.curr, ind.cost = none) := by
  obtain ⟨x, hx, rfl⟩ := update_positions_eq ops fuel h
  refine ⟨rfl, rfl, rfl, rfl, rfl, rfl, rfl, ?_, ?_⟩
  · exact updatePosGo_length ops _ _ _ _ hx
  · exact updatePosGo_cost_none ops _ _ _ _ hx

theorem evalCore_fields (costf : List ℚ → C) (p : Population ρ C) :
    (evalCore costf p).best = p.best ∧
    (evalCore costf p).num_cost_evaluations = p.num_cost_evaluations + 1 ∧
    (evalCore costf p).pop_countdown = p.pop_countdown - 1 ∧
    (evalCore costf p).pop_size = p.pop_size ∧
    (evalCore costf p).dim = p.dim ∧
    (evalCore costf p).rng = p.rng ∧
    (evalCore costf p).curr.length = p.curr.length := by
  refine ⟨rfl, rfl, rfl, rfl, rfl, rfl, ?_⟩
  simp [evalCore]

theorem eval_eq_boundary (ops : RngOps ρ) (fuel : Nat) (costf : List ℚ → C)
    (p : Population ρ C) (h : p.pop_countdown = 0) :
    Population.eval ops fuel costf p =
      (Population.update_positions ops fuel p.update_best).map
        (fun p2 => evalCore costf { p2 with pop_countdown := p2.curr.length }) := by
  simp [Population.eval, h]

theorem eval_eq_nonboundary (ops : RngOps ρ) (fuel : Nat) (costf : List ℚ → C)
    (p : Population ρ C) (h : ¬ p.pop_countdown = 0) :
    Population.eval ops fuel costf p = some (evalCore costf p) := by
  simp [Population.eval, h]

theorem swapCond_iff (cu be : Individual C) :
    swapCond cu be = true ↔
      (be.cost = none ∨
       ∃ cc bb, cu.cost = some cc ∧ be.cost = some bb ∧ cc ≤ bb) := by
  cases hcc : cu.cost <;> cases hbb : be.cost <;> simp [swapCond, hcc, hbb]

/-- Claim C2: in `update_best`, the Individuals at `curr[i]` and `best[i]`
are exchanged exactly when `best[i]` has no cost yet, or both costs are
present and `curr[i].cost ≤ best[i].cost` (non-strict); consequently any
cost `best[i]` held before the pass bounds from above the cost it holds
afterwards. -/
theorem claim_C2_update_best_spec {ρ C : Type} [PartialOrder C]
    [DecidableRel ((· ≤ ·) : C → C → Prop)]
    [DecidableRel ((· < ·) : C → C → Prop)] (p : Population ρ C) (i : Nat)
    (hc : i < p.curr.length) (hb : i < p.best.length) :
    ((p.update_best.curr.getD i default, p.update_best.best.getD i default) =
      if swapCond (p.curr.getD i default) (p.best.getD i default)
      then (p.best.getD i default, p.curr.getD i default)
      else (p.curr.getD i default, p.best.getD i default)) ∧
    (swapCond (p.curr.getD i default) (p.best.getD i default) = true ↔
      ((p.best.getD i default).cost = none ∨
       ∃ cc bb, (p.curr.getD i default).cost = some cc ∧
         (p.best.getD i default).cost = some bb ∧ cc ≤ bb)) ∧
    (∀ b0, (p.best.getD i default).cost = some b0 →
      ∃ b1, (p.update_best.best.getD i default).cost = some b1 ∧ b1 ≤ b0) := by
  have h := updateBestGo_getD p.curr p.best i hc hb
  have hiff := swapCond_iff (p.curr.getD i default) (p.best.getD i default)
  refine ⟨?_, hiff, ?_⟩
  · show ((updateBestGo p.curr p.best).1.getD i default,
        (updateBestGo p.curr p.best).2.getD i default) = _
    rw [h.1, h.2]
    by_cases hsw : swapCond (p.curr.getD i default) (p.best.getD i default)
        = true
    · rw [if_pos hsw, if_pos hsw, if_pos hsw]
    · rw [if_neg hsw, if_neg hsw, if_neg hsw]
  · intro b0 hb0
    by_cases hsw : swapCond (p.curr.getD i default) (p.best.getD i default)
        = true
    · rcases hiff.mp hsw with hnone | ⟨cc, bb, hcc, hbb, hle⟩
      · rw [hnone] at hb0; exact Option.noConfusion hb0
      · refine ⟨cc, ?_, ?_⟩
        · show ((updateBestGo p.curr p.best).2.getD i default).cost = some cc
          rw [h.2, if_pos hsw, hcc]
        · rw [hb0] at hbb
          exact (Option.some.inj hbb) ▸ hle
    · refine ⟨b0, ?_, le_refl b0⟩
      show ((updateBestGo p.curr p.best).2.getD i default).cost = some b0
      rw [h.2, if_neg hsw, hb0]

theorem getD_set_self {α : Type} (l : List α) (i : Nat) (a d : α)
    (h : i < l.length) : (l.set i a).getD i d = a := by
  rw [List.getD_eq_getElem?_getD]
  rw [List.getElem?_set_self (by simpa using h)]
  rfl

theorem eval_inv {p p' : Population ρ C} (ops : RngOps ρ) (fuel : Nat)
    (costf : List ℚ → C)
    (h : Population.eval ops fuel costf p = some p') :
    (p.pop_countdown = 0 ∧
      ∃ p2, Population.update_positions ops fuel p.update_best = some p2 ∧
        p' = evalCore costf { p2 with pop_countdown := p2.curr.length }) ∨
    (p.pop_countdown ≠ 0 ∧ p' = evalCore costf p) := by
  unfold Population.eval at h
  split at h <;> rename_i hcd
  · left
    refine ⟨hcd, ?_⟩
    cases hup : Population.update_positions ops fuel p.update_best with
    | none => rw [hup] at h; simp at h
    | some p2 =>
      rw [hup] at h
      exact ⟨p2, rfl, (Option.some.inj h).symm⟩
  · exact Or.inr ⟨hcd, (Option.some.inj h).symm⟩

theorem evalArg_inv {p : Population ρ C} {pos : List ℚ} (ops : RngOps ρ)
    (fuel : Nat) (h : Population.evalArg ops fuel p = some pos) :
    (p.pop_countdown = 0 ∧
      ∃ p2, Population.update_positions ops fuel p.update_best = some p2 ∧
        pos = (p2.curr.getD (p2.curr.length - 1) default).pos) ∨
    (p.pop_countdown ≠ 0 ∧
      pos = (p.curr.getD (p.pop_countdown - 1) default).pos) := by
  unfold Population.evalArg at h
  split at h <;> rename_i hcd
  · left
    refine ⟨hcd, ?_⟩
    cases hup : Population.update_positions ops fuel p.update_best with
    | none => rw [hup] at h; simp at h
    | some p2 =>
      rw [hup] at h
      exact ⟨p2, rfl, (Option.some.inj h).symm⟩
  · exact Or.inr ⟨hcd, (Option.some.inj h).symm⟩

theorem evalCore_congr (g h : List ℚ → C) (p : Population ρ C)
    (hgh : g ((p.curr.getD (p.pop_countdown - 1) default).pos) =
           h ((p.curr.getD (p.pop_countdown - 1) default).pos)) :
    evalCore g p = evalCore h p := by
  unfold evalCore
  simp only [hgh]

theorem evalCore_stores (g : List ℚ → C) (q : Population ρ C)
    (hlen : q.pop_countdown - 1 < q.curr.length) :
    ((evalCore g q).curr.getD (q.pop_countdown - 1) default).cost =
      some (g ((q.curr.getD (q.pop_countdown - 1) default).pos)) := by
  unfold evalCore
  rw [getD_set_self _ _ _ _ hlen]

/-- Claim C3: the evaluation counter is 0 after construction; every `eval`
call increments it by exactly 1; `eval` invokes the supplied cost function
exactly once, namely on the position `evalArg` (the outcome depends on the
cost function only through that single value, and that value is stored as
the evaluated individual's cost); and the iterator's `next` forwards to
`eval`.  No other operation receives a cost function at all
(`Population.new`, `update_best`, `update_positions`, `bestPair` take
none). -/
theorem claim_C3_eval_counts (ops : RngOps ρ) (fuel : Nat)
    (g h : List ℚ → C) (s : Settings ρ) (p p' q : Population ρ C) :
    (Population.new C ops s = some q → q.num_cost_evaluations = 0) ∧
    (Population.eval ops fuel g p = some p' →
      p'.num_cost_evaluations = p.num_cost_evaluations + 1) ∧
    (∀ pos, Population.evalArg ops fuel p = some pos → g pos = h pos →
      Population.eval ops fuel g p = Population.eval ops fuel h p) ∧
    (∀ pos, Population.evalArg ops fuel p = some pos →
      Population.eval ops fuel g p = some p' →
      p'.pop_countdown < p'.curr.length →
      (p'.curr.getD p'.pop_countdown default).cost = some (g pos)) ∧
    (PopIter.next ops fuel g p =
      (Population.eval ops fuel g p).map (fun x => (x, x.best_cost_cache))) := by
  refine ⟨?_, ?_, ?_, ?_, rfl⟩
  · intro hq
    exact (new_fields ops hq).2.2.2.2.2.2.1
  · intro hev
    rcases eval_inv ops fuel g hev with ⟨hcd, p2, hup, rfl⟩ | ⟨hcd, rfl⟩
    · show p2.num_cost_evaluations + 1 = _
      rw [(update_positions_fields ops fuel hup).2.2.2.1]
      rfl
    · rfl
  · intro pos harg hgh
    rcases evalArg_inv ops fuel harg with ⟨hcd, p2, hup, rfl⟩ | ⟨hcd, rfl⟩
    · rw [eval_eq_boundary ops fuel g p hcd, eval_eq_boundary ops fuel h p hcd,
        hup]
      simp only [Option.map_some']
      exact congrArg some (evalCore_congr g h
        { p2 with pop_countdown := p2.curr.length } (by simpa using hgh))
    · rw [eval_eq_nonboundary ops fuel g p hcd,
        eval_eq_nonboundary ops fuel h p hcd]
      rw [evalCore_congr g h p hgh]
  · intro pos harg hev hlen
    rcases eval_inv ops fuel g hev with ⟨hcd, p2, hup, rfl⟩ | ⟨hcd, rfl⟩
    · rcases evalArg_inv ops fuel harg with ⟨-, p2', hup', rfl⟩ | ⟨hcd', -⟩
      · rw [hup] at hup'
        have hp2 := Option.some.inj hup'
        subst hp2
        have hst := evalCore_stores g
          { p2 with pop_countdown := p2.curr.length }
          (by simpa [evalCore] using hlen)
        simpa [evalCore] using hst
      · exact absurd hcd hcd'
    · rcases evalArg_inv ops fuel harg with ⟨hcd', -⟩ | ⟨-, rfl⟩
      · exact absurd hcd' hcd
      · have hst := evalCore_stores g p (by simpa [evalCore] using hlen)
        simpa [evalCore] using hst

theorem traj_prefix (ops : RngOps ρ) (fuel : Nat) (costf : List ℚ → C)
    (s : Settings ρ) (p0 : Population ρ C)
    (h0 : Population.new C ops s = some p0) :
    ∀ k, k ≤ s.pop_size → ∃ pk, traj C ops fuel costf s k = some pk ∧
      pk.pop_countdown = s.pop_size - k ∧ pk.best = p0.best ∧
      pk.curr.length = s.pop_size ∧ pk.pop_size = s.pop_size := by
  intro k hk
  induction k with
  | zero =>
    obtain ⟨f1, f2, f3, -⟩ := new_fields ops h0
    exact ⟨p0, h0, by simpa using f1, rfl, f3, f2⟩
  | succ k ih =>
    obtain ⟨pk, hk1, hk2, hk3, hk4, hk5⟩ := ih (Nat.le_of_succ_le hk)
    have hne : pk.pop_countdown ≠ 0 := by rw [hk2]; omega
    have htr : traj C ops fuel costf s (k + 1) =
        Population.eval ops fuel costf pk := by
      show (traj C ops fuel costf s k).bind _ = _
      rw [hk1]
      rfl
    rw [htr, eval_eq_nonboundary ops fuel costf pk hne]
    refine ⟨evalCore costf pk, rfl, ?_, ?_, ?_, ?_⟩
    · rw [(evalCore_fields costf pk).2.2.1, hk2]; omega
    · rw [(evalCore_fields costf pk).1, hk3]
    · rw [(evalCore_fields costf pk).2.2.2.2.2.2, hk4]
    · rw [(evalCore_fields costf pk).2.2.2.1, hk5]

/-- Claim C5 (amended): starting from a freshly constructed population of
size `n ≥ 1`, after exactly `n` calls to `eval` the countdown equals `0`
(not `n`), and no selection/reproduction pass has occurred yet during those
`n` calls (the countdown at the start of each of them is nonzero, and the
`best` array is still the initial one); the first and only pass for the
first generation happens inside call `n + 1`, after which the countdown is
`n - 1` (never `n` again). -/
theorem claim_C5_amended (ops : RngOps ρ) (fuel : Nat) (costf : List ℚ → C)
    (s : Settings ρ) (p0 : Population ρ C) (hn : 0 < s.pop_size)
    (h0 : Population.new C ops s = some p0) :
    (∀ k, k ≤ s.pop_size → ∃ pk, traj C ops fuel costf s k = some pk ∧
      pk.pop_countdown = s.pop_size - k ∧ pk.best = p0.best) ∧
    (∀ k, k < s.pop_size → ∀ pk, traj C ops fuel costf s k = some pk →
      pk.pop_countdown ≠ 0) ∧
    (∀ pn, traj C ops fuel costf s s.pop_size = some pn →
      pn.pop_countdown = 0 ∧ pn.best = p0.best) ∧
    (∀ q, traj C ops fuel costf s (s.pop_size + 1) = some q →
      q.pop_countdown = s.pop_size - 1 ∧ q.pop_countdown ≠ s.pop_size) := by
  refine ⟨?_, ?_, ?_, ?_⟩
  · intro k hk
    obtain ⟨pk, h1, h2, h3, -⟩ := traj_prefix ops fuel costf s p0 h0 k hk
    exact ⟨pk, h1, h2, h3⟩
  · intro k hk pk hpk
    obtain ⟨pk', h1, h2, -⟩ := traj_prefix ops fuel costf s p0 h0 k
      (Nat.le_of_lt hk)
    rw [hpk] at h1
    have := Option.some.inj h1
    subst this
    rw [h2]
    omega
  · intro pn hpn
    obtain ⟨pn', h1, h2, h3, -⟩ := traj_prefix ops fuel costf s p0 h0
      s.pop_size (le_refl _)
    rw [hpn] at h1
    have := Option.some.inj h1
    subst this
    exact ⟨by rw [h2]; omega, h3⟩
  · intro q hq
    have hq' : (traj C ops fuel costf s s.pop_size).bind
        (Population.eval ops fuel costf) = some q := hq
    cases htn : traj C ops fuel costf s s.pop_size with
    | none => rw [htn] at hq'; simp at hq'
    | some pn =>
      rw [htn] at hq'
      have hev : Population.eval ops fuel costf pn = some q := hq'
      obtain ⟨pn', h1, h2, -, h4, -⟩ := traj_prefix ops fuel costf s p0 h0
        s.pop_size (le_refl _)
      rw [htn] at h1
      have := Option.some.inj h1
      subst this
      have hcd : pn.pop_countdown = 0 := by rw [h2]; omega
      rcases eval_inv ops fuel costf hev with ⟨-, p2, hup, rfl⟩ | ⟨hcd', -⟩
      · have hlen : p2.curr.length = s.pop_size := by
          rw [(update_positions_fields ops fuel hup).2.2.2.2.2.2.2.1,
            (update_best_fields pn).2.2.2.2.2.2.2.1, h4]
        constructor
        · show p2.curr.length - 1 = s.pop_size - 1
          rw [hlen]
        · show ¬ p2.curr.length - 1 = s.pop_size
          rw [hlen]
          omega
      · exact absurd hcd hcd'

theorem sampleAvoid_spec {n : Nat} {avoid : List Nat} (ops : RngOps ρ)
    (hb : ops.NatBounded) (hn : 0 < n) :
    ∀ (fuel : Nat) (r : ρ) (y : Nat × ρ),
      sampleAvoid ops n avoid fuel r = some y → y.1 < n ∧ y.1 ∉ avoid := by
  intro fuel
  induction fuel with
  | zero =>
    intro r y h
    simp only [sampleAvoid] at h
    split at h
    · exact Option.noConfusion h
    · rename_i hmem
      have hy := Option.some.inj h
      rw [← hy]
      exact ⟨hb r n hn, hmem⟩
  | succ fuel ih =>
    intro r y h
    simp only [sampleAvoid] at h
    split at h
    · exact ih _ y h
    · rename_i hmem
      have hy := Option.some.inj h
      rw [← hy]
      exact ⟨hb r n hn, hmem⟩

theorem mutDims_length (ops : RngOps ρ) (forced : Nat) (cr f : ℚ)
    (bpos b1 b2 b3 : List ℚ) :
    ∀ (k s : Nat) (r : ρ),
      (mutDims ops forced cr f bpos b1 b2 b3 s k r).1.length = k := by
  intro k
  induction k with
  | zero => intro s r; simp [mutDims]
  | succ k ih => intro s r; simp [mutDims, ih]

theorem mutDims_getD (ops : RngOps ρ) (forced : Nat) (cr f : ℚ)
    (bpos b1 b2 b3 : List ℚ) :
    ∀ (k s j : Nat) (r : ρ), j < k →
      (mutDims ops forced cr f bpos b1 b2 b3 s k r).1.getD j 0 =
        (if s + j = forced ∨
            (ops.genUnit (rngFrom ops forced s j r)).1 < cr
         then b3.getD (s + j) 0 + f * (b1.getD (s + j) 0 - b2.getD (s + j) 0)
         else bpos.getD (s + j) 0) := by
  intro k
  induction k with
  | zero => intro s j r hj; omega
  | succ k ih =>
    intro s j r hj
    cases j with
    | zero =>
      by_cases hf : s = forced
      · simp [mutDims, rngFrom, hf]
      · by_cases hcr : (ops.genUnit r).1 < cr <;>
          simp [mutDims, rngFrom, hf, hcr]
    | succ j =>
      have h := ih (s + 1) j (if s = forced then r else (ops.genUnit r).2)
        (by omega)
      have hadd : s + 1 + j = s + (j + 1) := by omega
      rw [hadd] at h
      by_cases hf : s = forced
      · simpa [mutDims, rngFrom, hf] using h
      · simpa [mutDims, rngFrom, hf] using h

theorem updateSlot_spec {fuel n dim : Nat} {crR fR : ℚ × ℚ} {crP fP : ℚ}
    {bArr : List (Individual C)} {bi : Individual C} {r : ρ}
    {y : Individual C × ρ} (ops : RngOps ρ) (hb : ops.NatBounded)
    (hn : 0 < n)
    (h : updateSlot ops fuel n dim crR fR crP fP bArr bi r = some y) :
    ∃ (id1 id2 id3 : Nat) (cr f : ℚ) (forced : Nat) (r6 : ρ),
      id1 < n ∧ id2 < n ∧ id3 < n ∧
      id2 ≠ id1 ∧ id3 ≠ id1 ∧ id3 ≠ id2 ∧
      y.1.cost = none ∧ y.1.cr = cr ∧ y.1.f = f ∧
      y.1.pos.length = dim ∧
      (∀ d, d < dim → y.1.pos.getD d 0 =
        (if d = forced ∨ (ops.genUnit (rngFrom ops forced 0 d r6)).1 < cr
         then (bArr.getD id3 default).pos.getD d 0 +
           f * ((bArr.getD id1 default).pos.getD d 0 -
                (bArr.getD id2 default).pos.getD d 0)
         else bi.pos.getD d 0)) := by
  unfold updateSlot at h
  split at h
  · exact Option.noConfusion h
  rename_i i1 h1
  split at h
  · exact Option.noConfusion h
  rename_i i2 h2
  split at h
  · exact Option.noConfusion h
  rename_i i3 h3
  have hs1 := sampleAvoid_spec ops hb hn fuel r i1 h1
  have hs2 := sampleAvoid_spec ops hb hn fuel i1.2 i2 h2
  have hs3 := sampleAvoid_spec ops hb hn fuel i2.2 i3 h3
  have hy := Option.some.inj h
  rw [← hy]
  refine ⟨i1.1, i2.1, i3.1,
    (adaptParam ops i3.2 crP crR bi.cr).1,
    (adaptParam ops (adaptParam ops i3.2 crP crR bi.cr).2 fP fR bi.f).1,
    (ops.sampleNat
      (adaptParam ops (adaptParam ops i3.2 crP crR bi.cr).2 fP fR bi.f).2
      dim).1,
    (ops.sampleNat
      (adaptParam ops (adaptParam ops i3.2 crP crR bi.cr).2 fP fR bi.f).2
      dim).2,
    hs1.1, hs2.1, hs3.1, ?_, ?_, ?_,
    rfl, rfl, rfl, mutDims_length ops _ _ _ _ _ _ _ _ _ _, ?_⟩
  · have h2m := hs2.2
    simp only [List.mem_singleton] at h2m
    exact h2m
  · have h3m := hs3.2
    simp only [List.mem_cons, List.mem_singleton, not_or] at h3m
    exact h3m.1
  · have h3m := hs3.2
    simp only [List.mem_cons, List.mem_singleton, not_or] at h3m
    exact h3m.2.1
  · intro d hd
    have := mutDims_getD ops
      (ops.sampleNat
        (adaptParam ops (adaptParam ops i3.2 crP crR bi.cr).2 fP fR bi.f).2
        dim).1
      (adaptParam ops i3.2 crP crR bi.cr).1
      (adaptParam ops (adaptParam ops i3.2 crP crR bi.cr).2 fP fR bi.f).1
      bi.pos (bArr.getD i1.1 default).pos (bArr.getD i2.1 default).pos
      (bArr.getD i3.1 default).pos dim 0 d
      (ops.sampleNat
        (adaptParam ops (adaptParam ops i3.2 crP crR bi.cr).2 fP fR bi.f).2
        dim).2 hd
    simpa using this

theorem updatePosGo_slots {fuel n dim : Nat} {crR fR : ℚ × ℚ}
    {crP fP : ℚ} {bArr : List (Individual C)} (ops : RngOps ρ) :
    ∀ (k i : Nat) (r : ρ) (x : List (Individual C) × ρ),
      updatePosGo ops fuel n dim crR fR crP fP bArr i k r = some x →
      ∀ j, j < k → ∃ (rj : ρ) (y : Individual C × ρ),
        updateSlot ops fuel n dim crR fR crP fP bArr
          (bArr.getD (i + j) default) rj = some y ∧
        x.1.getD j default = y.1 := by
  intro k
  induction k with
  | zero => intro i r x _ j hj; omega
  | succ k ih =>
    intro i r x h j hj
    simp only [updatePosGo] at h
    split at h
    · exact Option.noConfusion h
    rename_i y h1
    split at h
    · exact Option.noConfusion h
    rename_i z h2
    have hx := Option.some.inj h
    cases j with
    | zero =>
      refine ⟨r, y, by simpa using h1, ?_⟩
      rw [← hx]
      rfl
    | succ j =>
      obtain ⟨rj, w, hw1, hw2⟩ := ih (i + 1) y.2 z h2 j (by omega)
      have hadd : i + 1 + j = i + (j + 1) := by omega
      rw [hadd] at hw1
      refine ⟨rj, w, hw1, ?_⟩
      rw [← hx]
      simpa using hw2

/-- Claim C1: whenever `update_positions` completes, every slot `i` was
rebuilt from three pairwise distinct indices `id1, id2, id3 < pop_size`:
for every dimension `d`, if `d` is the forced mutation dimension or the
fresh uniform draw for `d` is `< curr[i].cr` (the freshly adapted value,
recorded in the slot), the new `curr[i].pos[d]` is
`best[id3].pos[d] + curr[i].f * (best[id1].pos[d] - best[id2].pos[d])`,
otherwise it is `best[i].pos[d]`; and afterwards `curr[i].cost` is absent.
The random source is assumed to respect the `Uniform(0, n)` range
contract. -/
theorem claim_C1_update_positions_spec {p p' : Population ρ C}
    (ops : RngOps ρ) (fuel : Nat) (hb : ops.NatBounded)
    (hn : 0 < p.pop_size)
    (h : Population.update_positions ops fuel p = some p') :
    ∀ i, i < p.curr.length →
      ∃ (id1 id2 id3 : Nat) (cr f : ℚ) (forced : Nat) (r6 : ρ),
        id1 < p.pop_size ∧ id2 < p.pop_size ∧ id3 < p.pop_size ∧
        id2 ≠ id1 ∧ id3 ≠ id1 ∧ id3 ≠ id2 ∧
        (p'.curr.getD i default).cost = none ∧
        (p'.curr.getD i default).cr = cr ∧
        (p'.curr.getD i default).f = f ∧
        (p'.curr.getD i default).pos.length = p.dim ∧
        (∀ d, d < p.dim → (p'.curr.getD i default).pos.getD d 0 =
          (if d = forced ∨ (ops.genUnit (rngFrom ops forced 0 d r6)).1 < cr
           then (p.best.getD id3 default).pos.getD d 0 +
             f * ((p.best.getD id1 default).pos.getD d 0 -
                  (p.best.getD id2 default).pos.getD d 0)
           else (p.best.getD i default).pos.getD d 0)) := by
  intro i hi
  obtain ⟨x, hx, rfl⟩ := update_positions_eq ops fuel h
  obtain ⟨rj, y, hy1, hy2⟩ := updatePosGo_slots ops _ _ _ _ hx i hi
  rw [Nat.zero_add] at hy1
  obtain ⟨id1, id2, id3, cr, f, forced, r6, u1, u2, u3, u4, u5, u6, u7, u8,
    u9, u10, u11⟩ := updateSlot_spec ops hb hn hy1
  refine ⟨id1, id2, id3, cr, f, forced, r6, u1, u2, u3, u4, u5, u6, ?_, ?_,
    ?_, ?_, ?_⟩
  · show (x.1.getD i default).cost = none
    rw [hy2]; exact u7
  · show (x.1.getD i default).cr = cr
    rw [hy2]; exact u8
  · show (x.1.getD i default).f = f
    rw [hy2]; exact u9
  · show (x.1.getD i default).pos.length = p.dim
    rw [hy2]; exact u10
  · intro d hd
    show (x.1.getD i default).pos.getD d 0 = _
    rw [hy2]
    exact u11 d hd

theorem getD_set_ne {α : Type} (l : List α) {i j : Nat} (a d : α)
    (h : i ≠ j) : (l.set i a).getD j d = l.getD j d := by
  rw [List.getD_eq_getElem?_getD, List.getD_eq_getElem?_getD,
    List.getElem?_set_ne h]

theorem updateBest_best_isSome {p : Population ρ C}
    (hlen : p.curr.length = p.best.length)
    (hall : ∀ k, k < p.curr.length →
      ((p.curr.getD k default).cost).isSome = true) :
    ∀ k, k < p.best.length →
      ((p.update_best.best.getD k default).cost).isSome = true := by
  intro k hk
  have h := updateBestGo_getD p.curr p.best k (by omega) hk
  show ((updateBestGo p.curr p.best).2.getD k default).cost.isSome = true
  rw [h.2]
  by_cases hsw : swapCond (p.curr.getD k default) (p.best.getD k default)
      = true
  · rw [if_pos hsw]; exact hall k (by omega)
  · rw [if_neg hsw]
    rcases hcost : (p.best.getD k default).cost with _ | b
    · exfalso
      apply hsw
      unfold swapCond
      rw [hcost]
      simp
    · simp

theorem winv_new {s : Settings ρ} {p : Population ρ C} (ops : RngOps ρ)
    (hn : 0 < s.pop_size) (h : Population.new C ops s = some p) :
    WInv p := by
  obtain ⟨f1, f2, f3, f4, f5, f6, f7, -, -, -⟩ := new_fields ops h
  refine ⟨by omega, by omega, by omega, by omega, ?_, ?_, ?_, ?_⟩
  · intro k hk1 hk2
    omega
  · simp [f5, f6]
  · simp [f5, f7]
  · intro i hi
    rw [f5] at hi
    exact Option.noConfusion hi

theorem winv_evalCore (costf : List ℚ → C) {q : Population ρ C}
    (hw : WInv q) (hcd : 1 ≤ q.pop_countdown) :
    WInv (evalCore costf q) := by
  obtain ⟨w1, w2, w3, w4, w5, w6, w7, w8⟩ := hw
  have hidx : q.pop_countdown - 1 < q.curr.length := by omega
  have e := evalCore_fields costf q
  refine ⟨?_, ?_, ?_, ?_, ?_, ?_, ?_, ?_⟩
  · rw [e.2.2.2.1]; exact w1
  · rw [e.2.2.2.2.2.2, e.2.2.2.1]; exact w2
  · rw [e.1, e.2.2.2.1]; exact w3
  · rw [e.2.2.1, e.2.2.2.1]; omega
  · intro k hk1 hk2
    rw [e.2.2.1] at hk1
    rw [e.2.2.2.1] at hk2
    by_cases hke : k = q.pop_countdown - 1
    · subst hke
      rw [evalCore_stores costf q hidx]
      rfl
    · have hne : (evalCore costf q).curr.getD k default =
          q.curr.getD k default :=
        getD_set_ne _ _ _ (fun he => hke he.symm)
      rw [hne]
      exact w5 k (by omega) hk2
  · rcases hc : q.best_cost_cache with _ | bc
    · simp [evalCore, hc]
    · by_cases him :
          costf ((q.curr.getD (q.pop_countdown - 1) default).pos) < bc
      · simp only [List.getD_eq_getElem?_getD] at him
        simp [evalCore, hc, him]
      · simp only [List.getD_eq_getElem?_getD] at him
        have hbi : ¬ q.best_idx = none := by
          rw [w6, hc]
          simp
        simp [evalCore, hc, him, hbi]
  · rcases hc : q.best_cost_cache with _ | bc
    · simp [evalCore, hc]
    · by_cases him :
          costf ((q.curr.getD (q.pop_countdown - 1) default).pos) < bc
      · simp only [List.getD_eq_getElem?_getD] at him
        simp [evalCore, hc, him]
      · simp only [List.getD_eq_getElem?_getD] at him
        have hbi : ¬ q.best_idx = none := by
          rw [w6, hc]
          simp
        simp [evalCore, hc, him, hbi]
  · intro i hi
    rcases hc : q.best_cost_cache with _ | bc
    · simp only [evalCore, hc] at hi
      have hie := Option.some.inj hi
      subst hie
      refine ⟨by rw [e.2.2.2.1] at *; omega, Or.inl ⟨?_, ?_⟩⟩
      · rw [evalCore_stores costf q hidx]
        rfl
      · rw [e.2.2.1]
    · by_cases him :
          costf ((q.curr.getD (q.pop_countdown - 1) default).pos) < bc
      · simp only [evalCore, hc] at hi
        rw [if_pos (decide_eq_true him)] at hi
        have hie := Option.some.inj hi
        subst hie
        refine ⟨by rw [e.2.2.2.1] at *; omega, Or.inl ⟨?_, ?_⟩⟩
        · rw [evalCore_stores costf q hidx]
          rfl
        · rw [e.2.2.1]
      · simp only [List.getD_eq_getElem?_getD] at him
        have hbi : (evalCore costf q).best_idx = q.best_idx := by
          simp [evalCore, hc, him]
        rw [hbi] at hi
        obtain ⟨hlt, hside⟩ := w8 i hi
        refine ⟨by rw [e.2.2.2.1]; exact hlt, ?_⟩
        rcases hside with ⟨hsome, hcd2⟩ | hbest
        · left
          have hne : i ≠ q.pop_countdown - 1 := by omega
          have hgd : (evalCore costf q).curr.getD i default =
              q.curr.getD i default :=
            getD_set_ne _ _ _ (fun he => hne he.symm)
          rw [hgd, e.2.2.1]
          exact ⟨hsome, by omega⟩
        · right
          have hb : (evalCore costf q).best = q.best := e.1
          rw [hb]
          exact hbest

theorem winv_boundary {p p2 : Population ρ C} (ops : RngOps ρ) (fuel : Nat)
    (hw : WInv p) (hcd : p.pop_countdown = 0)
    (hup : Population.update_positions ops fuel p.update_best = some p2) :
    WInv { p2 with pop_countdown := p2.curr.length } ∧
    1 ≤ p2.curr.length := by
  obtain ⟨w1, w2, w3, w4, w5, w6, w7, w8⟩ := hw
  have hub := update_best_fields p
  have hupf := update_positions_fields ops fuel hup
  have hculen : p2.curr.length = p.curr.length := by
    rw [hupf.2.2.2.2.2.2.2.1, hub.2.2.2.2.2.2.2.1]
  have hblen : p2.best.length = p.best.length := by
    rw [hupf.1, hub.2.2.2.2.2.2.2.2]
  have hbsome : ∀ k, k < p.best.length →
      ((p2.best.getD k default).cost).isSome = true := by
    intro k hk
    rw [hupf.1]
    exact updateBest_best_isSome (by omega)
      (fun k hk => w5 k (by omega) (by omega)) k hk
  refine ⟨⟨?_, ?_, ?_, ?_, ?_, ?_, ?_, ?_⟩, by omega⟩
  · show 0 < p2.pop_size
    rw [hupf.2.2.2.2.1, hub.2.2.2.1]
    exact w1
  · show p2.curr.length = p2.pop_size
    rw [hupf.2.2.2.2.1, hub.2.2.2.1]
    omega
  · show p2.best.length = p2.pop_size
    rw [hupf.2.2.2.2.1, hub.2.2.2.1]
    omega
  · show p2.curr.length ≤ p2.pop_size
    rw [hupf.2.2.2.2.1, hub.2.2.2.1]
    omega
  · intro k hk1 hk2
    have hk1' : p2.curr.length ≤ k := hk1
    have hk2' : k < p2.pop_size := hk2
    rw [hupf.2.2.2.2.1, hub.2.2.2.1] at hk2'
    omega
  · show p2.best_idx = none ↔ p2.best_cost_cache = none
    rw [hupf.2.1, hupf.2.2.1, hub.1, hub.2.1]
    exact w6
  · show p2.best_idx = none ↔ p2.num_cost_evaluations = 0
    rw [hupf.2.1, hupf.2.2.2.1, hub.1, hub.2.2.1]
    exact w7
  · intro i hi
    show i < p2.pop_size ∧ _
    have hi' : p.best_idx = some i := by
      rw [← hub.1, ← hupf.2.1]
      exact hi
    obtain ⟨hlt, -⟩ := w8 i hi'
    refine ⟨by rw [hupf.2.2.2.2.1, hub.2.2.2.1]; omega, Or.inr ?_⟩
    exact hbsome i (by omega)

theorem winv_eval {p p' : Population ρ C} (ops : RngOps ρ) (fuel : Nat)
    (costf : List ℚ → C) (hw : WInv p)
    (h : Population.eval ops fuel costf p = some p') : WInv p' := by
  rcases eval_inv ops fuel costf h with ⟨hcd, p2, hup, rfl⟩ | ⟨hcd, rfl⟩
  · obtain ⟨hw2, hge⟩ := winv_boundary ops fuel hw hcd hup
    exact winv_evalCore costf hw2 (by simpa using hge)
  · exact winv_evalCore costf hw (by omega)

theorem winv_traj {s : Settings ρ} (ops : RngOps ρ) (fuel : Nat)
    (costf : List ℚ → C) (hn : 0 < s.pop_size) :
    ∀ (n : Nat) (p : Population ρ C),
      traj C ops fuel costf s n = some p → WInv p := by
  intro n
  induction n with
  | zero => intro p h; exact winv_new ops hn h
  | succ n ih =>
    intro p h
    have h' : (traj C ops fuel costf s n).bind
        (Population.eval ops fuel costf) = some p := h
    cases htn : traj C ops fuel costf s n with
    | none => rw [htn] at h'; simp at h'
    | some pn =>
      rw [htn] at h'
      exact winv_eval ops fuel costf (ih pn htn) h'

theorem costIn_of_curr_getD {p : Population ρ C} {i : Nat} {x : C}
    (hi : i < p.curr.length) (h : (p.curr.getD i default).cost = some x) :
    CostIn p x := by
  left
  rw [List.getD_eq_getElem?_getD, List.getElem?_eq_getElem hi] at h
  have : p.curr.get ⟨i, hi⟩ ∈ p.curr := List.get_mem _ _ hi
  exact List.mem_map.mpr ⟨_, this, h⟩

theorem costIn_of_best_getD {p : Population ρ C} {i : Nat} {x : C}
    (hi : i < p.best.length) (h : (p.best.getD i default).cost = some x) :
    CostIn p x := by
  right
  rw [List.getD_eq_getElem?_getD, List.getElem?_eq_getElem hi] at h
  have : p.best.get ⟨i, hi⟩ ∈ p.best := List.get_mem _ _ hi
  exact List.mem_map.mpr ⟨_, this, h⟩

theorem costIn_update_best {p : Population ρ C} {x : C}
    (h : CostIn p.update_best x) : CostIn p x := by
  rcases h with h | h <;> obtain ⟨ind, hmem, hcost⟩ := List.mem_map.mp h
  · rcases mem_updateBestGo_fst p.curr p.best hmem with hm | hm
    · exact Or.inl (List.mem_map.mpr ⟨ind, hm, hcost⟩)
    · exact Or.inr (List.mem_map.mpr ⟨ind, hm, hcost⟩)
  · rcases mem_updateBestGo_snd p.curr p.best hmem with hm | hm
    · exact Or.inl (List.mem_map.mpr ⟨ind, hm, hcost⟩)
    · exact Or.inr (List.mem_map.mpr ⟨ind, hm, hcost⟩)

theorem costIn_update_positions {p q : Population ρ C} {x : C}
    (ops : RngOps ρ) (fuel : Nat)
    (hup : Population.update_positions ops fuel p = some q)
    (h : CostIn q x) : CostIn p x := by
  have hf := update_positions_fields ops fuel hup
  rcases h with h | h
  · obtain ⟨ind, hmem, hcost⟩ := List.mem_map.mp h
    rw [hf.2.2.2.2.2.2.2.2 ind hmem] at hcost
    exact Option.noConfusion hcost
  · obtain ⟨ind, hmem, hcost⟩ := List.mem_map.mp h
    rw [hf.1] at hmem
    exact Or.inr (List.mem_map.mpr ⟨ind, hmem, hcost⟩)

theorem costIn_evalCore {q : Population ρ C} {x : C} (costf : List ℚ → C)
    (h : CostIn (evalCore costf q) x) :
    CostIn q x ∨
      x = costf ((q.curr.getD (q.pop_countdown - 1) default).pos) := by
  rcases h with h | h
  · obtain ⟨ind, hmem, hcost⟩ := List.mem_map.mp h
    have hmem' : ind ∈ q.curr.set (q.pop_countdown - 1)
        { q.curr.getD (q.pop_countdown - 1) default with
          cost := some (costf ((q.curr.getD (q.pop_countdown - 1)
            default).pos)) } := hmem
    rcases List.mem_or_eq_of_mem_set hmem' with hm | hm
    · exact Or.inl (Or.inl (List.mem_map.mpr ⟨ind, hm, hcost⟩))
    · right
      rw [hm] at hcost
      exact (Option.some.inj hcost).symm
  · exact Or.inl (Or.inr (by
      have hb : (evalCore costf q).best = q.best := rfl
      rwa [hb] at h))

/-- Claim C10: in every reachable state, when `best_idx` is present the
slot it indexes has a cost on at least one side, and whenever the `curr`
side is absent the `best` side is present — exactly the two conditions
under which every `unwrap` inside `best()` is reached with a `Some`; and
`best()` returns `none` exactly when no evaluation has occurred.  This
holds for arbitrary (also merely partially ordered) cost types. -/
theorem claim_C10_best_safety {s : Settings ρ} {p : Population ρ C}
    (ops : RngOps ρ) (fuel : Nat) (costf : List ℚ → C) (n : Nat)
    (hn : 0 < s.pop_size) (h : traj C ops fuel costf s n = some p) :
    (∀ i, p.best_idx = some i →
      ((((p.curr.getD i default).cost).isSome = true ∨
        ((p.best.getD i default).cost).isSome = true) ∧
       ((p.curr.getD i default).cost = none →
        ((p.best.getD i default).cost).isSome = true))) ∧
    (p.bestPair = none ↔ p.num_cost_evaluations = 0) := by
  obtain ⟨w1, w2, w3, w4, w5, w6, w7, w8⟩ := winv_traj ops fuel costf hn n p h
  constructor
  · intro i hi
    obtain ⟨hlt, hside⟩ := w8 i hi
    rcases hside with ⟨hsome, -⟩ | hbest
    · refine ⟨Or.inl hsome, fun hn2 => ?_⟩
      rw [hn2] at hsome
      simp at hsome
    · exact ⟨Or.inr hbest, fun _ => hbest⟩
  · constructor
    · intro hbp
      rcases hbi : p.best_idx with _ | i
      · exact w7.mp hbi
      · exfalso
        obtain ⟨hlt, hside⟩ := w8 i hbi
        unfold Population.bestPair at hbp
        rw [hbi] at hbp
        rcases hcu : (p.curr.getD i default).cost with _ | c <;>
          rcases hbe : (p.best.getD i default).cost with _ | b
        · rcases hside with ⟨hsome, -⟩ | hbest
          · rw [hcu] at hsome; simp at hsome
          · rw [hbe] at hbest; simp at hbest
        · simp only [hcu, hbe] at hbp
          exact Option.noConfusion hbp
        · simp only [hcu, hbe] at hbp
          exact Option.noConfusion hbp
        · simp only [hcu, hbe] at hbp
          split at hbp <;> exact Option.noConfusion hbp
    · intro hne
      have hbi := w7.mpr hne
      unfold Population.bestPair
      rw [hbi]

theorem eval_num {p p' : Population ρ C} (ops : RngOps ρ) (fuel : Nat)
    (costf : List ℚ → C)
    (h : Population.eval ops fuel costf p = some p') :
    p'.num_cost_evaluations = p.num_cost_evaluations + 1 := by
  rcases eval_inv ops fuel costf h with ⟨-, p2, hup, rfl⟩ | ⟨-, rfl⟩
  · show p2.num_cost_evaluations + 1 = _
    rw [(update_positions_fields ops fuel hup).2.2.2.1]
    rfl
  · rfl

theorem traj_num {s : Settings ρ} (ops : RngOps ρ) (fuel : Nat)
    (costf : List ℚ → C) :
    ∀ (n : Nat) (p : Population ρ C),
      traj C ops fuel costf s n = some p →
      p.num_cost_evaluations = n := by
  intro n
  induction n with
  | zero =>
    intro p h
    exact (new_fields ops h).2.2.2.2.2.2.1
  | succ n ih =>
    intro p h
    have h' : (traj C ops fuel costf s n).bind
        (Population.eval ops fuel costf) = some p := h
    cases htn : traj C ops fuel costf s n with
    | none => rw [htn] at h'; simp at h'
    | some pn =>
      rw [htn] at h'
      rw [eval_num ops fuel costf h', ih pn htn]

theorem pos_getD_zero {l : List ℚ} (h : l = [0] ∨ l = []) (d : Nat) :
    l.getD d 0 = 0 := by
  rcases h with rfl | rfl <;> cases d <;> simp [List.getD]

theorem bArr_pos_getD_zero {bArr : List (Individual C)}
    (hz : ∀ ind ∈ bArr, ind.pos = [0]) (id d : Nat) :
    ((bArr.getD id default).pos).getD d 0 = 0 := by
  rcases lt_or_ge id bArr.length with hlt | hge
  · have hmem : bArr.getD id default ∈ bArr := by
      rw [List.getD_eq_getElem?_getD, List.getElem?_eq_getElem hlt]
      exact List.getElem_mem hlt
    exact pos_getD_zero (Or.inl (hz _ hmem)) d
  · rw [List.getD_eq_default _ _ hge]
    exact pos_getD_zero (Or.inr rfl) d

theorem updateSlot_zero {fuel n : Nat} {crR fR : ℚ × ℚ} {crP fP : ℚ}
    {bArr : List (Individual C)} {bi : Individual C} {r : ρ}
    {y : Individual C × ρ} (ops : RngOps ρ)
    (hz : ∀ ind ∈ bArr, ind.pos = [0])
    (hbp : ∀ d, bi.pos.getD d 0 = 0)
    (h : updateSlot ops fuel n 1 crR fR crP fP bArr bi r = some y) :
    y.1.pos = [0] := by
  unfold updateSlot at h
  split at h
  · exact Option.noConfusion h
  split at h
  · exact Option.noConfusion h
  split at h
  · exact Option.noConfusion h
  have hy := Option.some.inj h
  rw [← hy]
  show (mutDims ops _ _ _ bi.pos _ _ _ 0 1 _).1 = [0]
  have h1 : ∀ id d : Nat, ((bArr[id]?.getD default).pos)[d]?.getD 0 = 0 := by
    intro id d
    simpa [List.getD_eq_getElem?_getD] using bArr_pos_getD_zero hz id d
  have h2 : ∀ d : Nat, bi.pos[d]?.getD 0 = 0 := by
    intro d
    simpa [List.getD_eq_getElem?_getD] using hbp d
  simp [mutDims, h1, h2]

theorem updatePosGo_zero {fuel n : Nat} {crR fR : ℚ × ℚ} {crP fP : ℚ}
    {bArr : List (Individual C)} (ops : RngOps ρ)
    (hz : ∀ ind ∈ bArr, ind.pos = [0]) :
    ∀ (k i : Nat) (r : ρ) (x : List (Individual C) × ρ),
      updatePosGo ops fuel n 1 crR fR crP fP bArr i k r = some x →
      ∀ ind ∈ x.1, ind.pos = [0] := by
  intro k
  induction k with
  | zero =>
    intro i r x h
    simp only [updatePosGo, Option.some.injEq] at h
    simp [← h]
  | succ k ih =>
    intro i r x h
    simp only [updatePosGo] at h
    split at h
    · exact Option.noConfusion h
    rename_i y h1
    split at h
    · exact Option.noConfusion h
    rename_i z h2
    have hx := Option.some.inj h
    intro ind hm
    rw [← hx] at hm
    rcases List.mem_cons.mp hm with hm | hm
    · rw [hm]
      exact updateSlot_zero ops hz (bArr_pos_getD_zero hz i) h1
    · exact ih (i + 1) y.2 z h2 ind hm

theorem evalCore_cache_improved {q : Population ρ C} (costf : List ℚ → C)
    (him : q.best_cost_cache = none ∨
      ∃ bc, q.best_cost_cache = some bc ∧
        costf ((q.curr.getD (q.pop_countdown - 1) default).pos) < bc) :
    (evalCore costf q).best_idx = some (q.pop_countdown - 1) ∧
    (evalCore costf q).best_cost_cache =
      some (costf ((q.curr.getD (q.pop_countdown - 1) default).pos)) := by
  rcases him with hc | ⟨bc, hc, hlt⟩
  · constructor <;> simp [evalCore, hc]
  · constructor <;>
      · show (if _ then _ else _) = _
        simp only [evalCore, hc]
        rw [if_pos (decide_eq_true hlt)]

theorem evalCore_cache_kept {q : Population ρ C} (costf : List ℚ → C)
    {bc : C} (hc : q.best_cost_cache = some bc)
    (hge : ¬ costf ((q.curr.getD (q.pop_countdown - 1) default).pos) < bc) :
    (evalCore costf q).best_idx = q.best_idx ∧
    (evalCore costf q).best_cost_cache = some bc := by
  constructor <;>
    · show (if _ then _ else _) = _
      simp only [evalCore, hc]
      rw [if_neg (by simpa using hge)]

theorem zinv_update_best {costf : List ℚ → C} {p : Population ρ C}
    (hz : ZInvP costf p) : ZInvP costf p.update_best := by
  obtain ⟨z1, z2, z3, z4, z5⟩ := hz
  refine ⟨?_, ?_, ?_, ?_, ?_⟩
  · rw [(update_best_fields p).2.2.2.2.1]
    exact z1
  · intro ind hm
    rcases mem_updateBestGo_fst p.curr p.best hm with hm | hm
    · exact z2 _ hm
    · exact z3 _ hm
  · intro ind hm
    rcases mem_updateBestGo_snd p.curr p.best hm with hm | hm
    · exact z2 _ hm
    · exact z3 _ hm
  · intro x hx
    exact z4 x (costIn_update_best hx)
  · rw [(update_best_fields p).2.1]
    exact z5

theorem zinv_evalCore {costf : List ℚ → C} {q : Population ρ C}
    (hidx : q.pop_countdown - 1 < q.curr.length)
    (hz : ZInvP costf q) : ZInvP costf (evalCore costf q) := by
  obtain ⟨z1, z2, z3, z4, z5⟩ := hz
  have e := evalCore_fields costf q
  have hargmem : q.curr.getD (q.pop_countdown - 1) default ∈ q.curr := by
    rw [List.getD_eq_getElem?_getD, List.getElem?_eq_getElem hidx]
    exact List.getElem_mem hidx
  have harg : (q.curr.getD (q.pop_countdown - 1) default).pos = [0] :=
    z2 _ hargmem
  refine ⟨?_, ?_, ?_, ?_, ?_⟩
  · rw [e.2.2.2.2.1]
    exact z1
  · intro ind hm
    have hm' : ind ∈ q.curr.set (q.pop_countdown - 1)
        { q.curr.getD (q.pop_countdown - 1) default with
          cost := some (costf ((q.curr.getD (q.pop_countdown - 1)
            default).pos)) } := hm
    rcases List.mem_or_eq_of_mem_set hm' with hm2 | hm2
    · exact z2 _ hm2
    · rw [hm2]
      exact harg
  · intro ind hm
    rw [e.1] at hm
    exact z3 _ hm
  · intro x hx
    rcases costIn_evalCore costf hx with hold | hnew
    · exact z4 x hold
    · rw [hnew, harg]
  · rcases z5 with hc | hc
    · right
      rw [(evalCore_cache_improved costf (Or.inl hc)).2, harg]
    · by_cases hlt : costf ((q.curr.getD (q.pop_countdown - 1)
          default).pos) < costf [0]
      · right
        rw [(evalCore_cache_improved costf
          (Or.inr ⟨costf [0], hc, hlt⟩)).2, harg]
      · right
        exact (evalCore_cache_kept costf hc hlt).2

theorem boundary_curr_zero {costf : List ℚ → C} {p p2 : Population ρ C}
    (ops : RngOps ρ) (fuel : Nat) (hz : ZInvP costf p)
    (hup : Population.update_positions ops fuel p.update_best = some p2) :
    ∀ ind ∈ p2.curr, ind.pos = [0] := by
  have hzb := zinv_update_best hz
  obtain ⟨x, hx, hp2⟩ := update_positions_eq ops fuel hup
  rw [(update_best_fields p).2.2.2.2.1, hz.1] at hx
  intro ind hm
  have hm' : ind ∈ x.1 := by rw [hp2] at hm; exact hm
  exact updatePosGo_zero ops hzb.2.2.1 _ _ _ _ hx ind hm'

theorem zinv_eval {costf : List ℚ → C} {p p' : Population ρ C}
    (ops : RngOps ρ) (fuel : Nat) (hw : WInv p) (hz : ZInvP costf p)
    (h : Population.eval ops fuel costf p = some p') : ZInvP costf p' := by
  rcases eval_inv ops fuel costf h with ⟨hcd, p2, hup, rfl⟩ | ⟨hcd, rfl⟩
  · have hzb := zinv_update_best hz
    have hf := update_positions_fields ops fuel hup
    have hb := winv_boundary ops fuel hw hcd hup
    have hzq : ZInvP costf { p2 with pop_countdown := p2.curr.length } := by
      refine ⟨?_, ?_, ?_, ?_, ?_⟩
      · show p2.dim = 1
        rw [hf.2.2.2.2.2.1, (update_best_fields p).2.2.2.2.1]
        exact hz.1
      · show ∀ ind ∈ p2.curr, ind.pos = [0]
        exact boundary_curr_zero ops fuel hz hup
      · show ∀ ind ∈ p2.best, ind.pos = [0]
        intro ind hm
        rw [hf.1] at hm
        exact hzb.2.2.1 _ hm
      · intro x hx
        have hx' : CostIn p2 x := hx
        exact hzb.2.2.2.1 x (costIn_update_positions ops fuel hup hx')
      · show p2.best_cost_cache = none ∨
          p2.best_cost_cache = some (costf [0])
        rw [hf.2.2.1, (update_best_fields p).2.1]
        exact hz.2.2.2.2
    have h1 : 1 ≤ p2.curr.length := hb.2
    exact zinv_evalCore
      (show p2.curr.length - 1 < p2.curr.length by omega) hzq
  · obtain ⟨w1, w2, -, w4, -⟩ := hw
    have hidx : p.pop_countdown - 1 < p.curr.length := by rw [w2]; omega
    exact zinv_evalCore hidx hz

theorem zinv_evalArg {costf : List ℚ → C} {p : Population ρ C}
    (ops : RngOps ρ) (fuel : Nat) (hw : WInv p) (hz : ZInvP costf p) :
    ∀ pos, Population.evalArg ops fuel p = some pos → pos = [0] := by
  intro pos h
  unfold Population.evalArg at h
  split at h <;> rename_i hcd
  · cases hup : Population.update_positions ops fuel p.update_best with
    | none => rw [hup] at h; simp at h
    | some p2 =>
      rw [hup] at h
      simp only [Option.map_some', Option.some.injEq] at h
      have hb := winv_boundary ops fuel hw hcd hup
      have hlen : p2.curr.length - 1 < p2.curr.length := by
        have := hb.2; omega
      have hmem : p2.curr.getD (p2.curr.length - 1) default ∈ p2.curr := by
        rw [List.getD_eq_getElem?_getD, List.getElem?_eq_getElem hlen]
        exact List.getElem_mem hlen
      rw [← h]
      exact boundary_curr_zero ops fuel hz hup _ hmem
  · have h' := Option.some.inj h
    obtain ⟨w1, w2, -, w4, -⟩ := hw
    have hidx : p.pop_countdown - 1 < p.curr.length := by rw [w2]; omega
    have hmem : p.curr.getD (p.pop_countdown - 1) default ∈ p.curr := by
      rw [List.getD_eq_getElem?_getD, List.getElem?_eq_getElem hidx]
      exact List.getElem_mem hidx
    rw [← h']
    exact hz.2.1 _ hmem

theorem initIndividuals_zero {crr fr : ℚ × ℚ} {crp fp : ℚ} {np : Nat}
    {r0 : ρ} (ops : RngOps ρ)
    (hdeg : ∀ r, (ops.sampleRange r (0 : ℚ) 0).1 = 0) :
    ∀ (k : Nat) (r : ρ), ∀ ind ∈ (initIndividuals (C := C) ops
      ⟨[(0, 0)], crr, crp, fr, fp, np, r0⟩ k r).1, ind.pos = [0] := by
  intro k
  induction k with
  | zero => intro r ind hm; simp [initIndividuals] at hm
  | succ k ih =>
    intro r ind hm
    simp only [initIndividuals] at hm
    rcases List.mem_cons.mp hm with hm | hm
    · rw [hm]
      show (initPos ops [(0, 0)] _).1 = [0]
      simp [initPos, hdeg]
    · exact ih _ ind hm

theorem zinv_new {costf : List ℚ → C} {p : Population ρ C} {crr fr : ℚ × ℚ}
    {crp fp : ℚ} {np : Nat} {r0 : ρ} (ops : RngOps ρ)
    (hdeg : ∀ r, (ops.sampleRange r (0 : ℚ) 0).1 = 0)
    (h : Population.new C ops ⟨[(0, 0)], crr, crp, fr, fp, np, r0⟩ = some p) :
    ZInvP costf p := by
  unfold Population.new at h
  split at h
  · have h' := Option.some.inj h
    subst h'
    refine ⟨rfl, ?_, ?_, ?_, Or.inl rfl⟩
    · intro ind hm
      exact initIndividuals_zero ops hdeg _ _ ind hm
    · intro ind hm
      have hm' : ind ∈ List.replicate np
          (⟨List.replicate 1 0, none, 0, 0⟩ : Individual C) := hm
      rw [List.eq_of_mem_replicate hm']
      rfl
    · intro x hx
      rcases hx with hx | hx
      · obtain ⟨ind, hmem, hcost⟩ := List.mem_map.mp hx
        have hmem' : ind ∈ (initIndividuals (C := C) ops
            ⟨[(0, 0)], crr, crp, fr, fp, np, r0⟩ np r0).1 := hmem
        rw [initIndividuals_cost_none ops _ np r0 ind hmem'] at hcost
        exact Option.noConfusion hcost
      · obtain ⟨ind, hmem, hcost⟩ := List.mem_map.mp hx
        have hmem' : ind ∈ List.replicate np
            (⟨List.replicate 1 0, none, 0, 0⟩ : Individual C) := hmem
        rw [List.eq_of_mem_replicate hmem'] at hcost
        exact Option.noConfusion hcost
  · exact Option.noConfusion h

theorem zinv_traj {costf : List ℚ → C} {crr fr : ℚ × ℚ} {crp fp : ℚ}
    {np : Nat} {r0 : ρ} (ops : RngOps ρ) (fuel : Nat)
    (hdeg : ∀ r, (ops.sampleRange r (0 : ℚ) 0).1 = 0) (hnp : 0 < np) :
    ∀ (n : Nat) (p : Population ρ C),
      traj C ops fuel costf ⟨[(0, 0)], crr, crp, fr, fp, np, r0⟩ n = some p →
      ZInvP costf p := by
  intro n
  induction n with
  | zero => intro p h; exact zinv_new ops hdeg h
  | succ n ih =>
    intro p h
    have h' : (traj C ops fuel costf
        ⟨[(0, 0)], crr, crp, fr, fp, np, r0⟩ n).bind
        (Population.eval ops fuel costf) = some p := h
    cases htn : traj C ops fuel costf
        ⟨[(0, 0)], crr, crp, fr, fp, np, r0⟩ n with
    | none => rw [htn] at h'; simp at h'
    | some pn =>
      rw [htn] at h'
      exact zinv_eval ops fuel
        (winv_traj ops fuel costf hnp n pn htn) (ih pn htn) h'

theorem bestPair_const {p : Population ρ C} {c0 : C} {i : Nat}
    (hw : WInv p) (hall : ∀ x, CostIn p x → x = c0)
    (hbi : p.best_idx = some i) :
    ∃ bp, p.bestPair = some (c0, bp) := by
  obtain ⟨w1, w2, w3, w4, w5, w6, w7, w8⟩ := hw
  obtain ⟨hlt, hside⟩ := w8 i hbi
  have hic : i < p.curr.length := by omega
  have hib : i < p.best.length := by omega
  unfold Population.bestPair
  rw [hbi]
  rcases hcu : (p.curr.getD i default).cost with _ | c <;>
    rcases hbe : (p.best.getD i default).cost with _ | b
  · rcases hside with ⟨hsome, -⟩ | hbest
    · rw [hcu] at hsome; simp at hsome
    · rw [hbe] at hbest; simp at hbest
  · have hb := hall b (costIn_of_best_getD hib hbe)
    simp only [hcu, hbe]
    exact ⟨_, by rw [hb]⟩
  · have hc := hall c (costIn_of_curr_getD hic hcu)
    simp only [hcu, hbe]
    exact ⟨_, by rw [hc]⟩
  · have hc := hall c (costIn_of_curr_getD hic hcu)
    have hb := hall b (costIn_of_best_getD hib hbe)
    simp only [hcu, hbe]
    by_cases hlt2 : c < b
    · rw [if_pos hlt2]
      exact ⟨_, by rw [hc]⟩
    · rw [if_neg hlt2]
      exact ⟨_, by rw [hb]⟩

/-- Claim C8: for a 1-dimensional problem with the degenerate bounds pair
`(0,0)` — under a random source whose draw from the degenerate range
`(0,0)` is `0`, as the `rand` crate's float `Uniform` yields
(`x * (high - low) + low` with zero scale) — construction succeeds, the
position handed to the cost function by every `eval` call is `[0]`, and
from the first evaluation onward the cached best cost — and the cost
returned by `best()` — equals the cost function applied to `[0]`. -/
theorem claim_C8_degenerate_bounds (ops : RngOps ρ) (fuel : Nat)
    (costf : List ℚ → C) (crr fr : ℚ × ℚ) (crp fp : ℚ) (np : Nat) (r0 : ρ)
    (hdeg : ∀ r, (ops.sampleRange r (0 : ℚ) 0).1 = 0) (hnp : 0 < np) :
    (∃ p0, Population.new C ops
      ⟨[(0, 0)], crr, crp, fr, fp, np, r0⟩ = some p0) ∧
    (∀ (n : Nat) (p : Population ρ C),
      traj C ops fuel costf ⟨[(0, 0)], crr, crp, fr, fp, np, r0⟩ n = some p →
      (∀ pos, Population.evalArg ops fuel p = some pos → pos = [0]) ∧
      (1 ≤ n →
        p.best_cost_cache = some (costf [0]) ∧
        ∃ bp, p.bestPair = some (costf [0], bp))) := by
  constructor
  · cases hnew : Population.new C ops
        ⟨[(0, 0)], crr, crp, fr, fp, np, r0⟩ with
    | none =>
      unfold Population.new at hnew
      rw [if_pos (by simp)] at hnew
      exact Option.noConfusion hnew
    | some p0 => exact ⟨p0, rfl⟩
  · intro n p h
    have hw := winv_traj ops fuel costf hnp n p h
    have hz := zinv_traj ops fuel hdeg hnp n p h
    refine ⟨zinv_evalArg ops fuel hw hz, ?_⟩
    intro hn1
    have hnum : p.num_cost_evaluations = n := traj_num ops fuel costf n p h
    obtain ⟨w1, w2, w3, w4, w5, w6, w7, w8⟩ := hw
    have hbi : p.best_idx ≠ none := by
      intro hno
      have := w7.mp hno
      omega
    rcases hbiv : p.best_idx with _ | i
    · exact absurd hbiv hbi
    have hcs : p.best_cost_cache ≠ none := by
      intro hno
      exact hbi (w6.mpr hno)
    have hcache : p.best_cost_cache = some (costf [0]) := by
      rcases hz.2.2.2.2 with hc | hc
      · exact absurd hc hcs
      · exact hc
    exact ⟨hcache,
      bestPair_const ⟨w1, w2, w3, w4, w5, w6, w7, w8⟩ hz.2.2.2.1 hbiv⟩

end Structural

section Determinism

variable {ρ₁ ρ₂ C : Type} [PartialOrder C]
  [DecidableRel ((· ≤ ·) : C → C → Prop)]
  [DecidableRel ((· < ·) : C → C → Prop)]
  {R : ρ₁ → ρ₂ → Prop} {ops₁ : RngOps ρ₁} {ops₂ : RngOps ρ₂}

theorem optRel_cases {α β : Type} {Q : α → β → Prop} {o₁ : Option α}
    {o₂ : Option β} (h : OptRel Q o₁ o₂) :
    (o₁ = none ∧ o₂ = none) ∨
      ∃ a b, o₁ = some a ∧ o₂ = some b ∧ Q a b := by
  cases o₁ <;> cases o₂
  · exact Or.inl ⟨rfl, rfl⟩
  · exact h.elim
  · exact h.elim
  · exact Or.inr ⟨_, _, rfl, rfl, h⟩

theorem initPos_sim (hsim : RngSim ops₁ ops₂ R) :
    ∀ (bounds : List (ℚ × ℚ)) (r₁ : ρ₁) (r₂ : ρ₂), R r₁ r₂ →
      (initPos ops₁ bounds r₁).1 = (initPos ops₂ bounds r₂).1 ∧
      R (initPos ops₁ bounds r₁).2 (initPos ops₂ bounds r₂).2 := by
  intro bounds
  induction bounds with
  | nil => intro r₁ r₂ hr; exact ⟨rfl, hr⟩
  | cons b rest ih =>
    intro r₁ r₂ hr
    obtain ⟨lo, hi⟩ := b
    have h1 := (hsim r₁ r₂ hr).2.1 lo hi
    have h2 := ih _ _ h1.2
    constructor
    · simp [initPos, h1.1, h2.1]
    · simpa [initPos] using h2.2

theorem initIndividuals_sim (hsim : RngSim ops₁ ops₂ R)
    (mm : List (ℚ × ℚ)) (crr : ℚ × ℚ) (crp : ℚ) (fr : ℚ × ℚ) (fp : ℚ)
    (np : Nat) (ra : ρ₁) (rb : ρ₂) :
    ∀ (k : Nat) (r₁ : ρ₁) (r₂ : ρ₂), R r₁ r₂ →
      (initIndividuals (C := C) ops₁
        ⟨mm, crr, crp, fr, fp, np, ra⟩ k r₁).1 =
      (initIndividuals (C := C) ops₂
        ⟨mm, crr, crp, fr, fp, np, rb⟩ k r₂).1 ∧
      R (initIndividuals (C := C) ops₁
          ⟨mm, crr, crp, fr, fp, np, ra⟩ k r₁).2
        (initIndividuals (C := C) ops₂
          ⟨mm, crr, crp, fr, fp, np, rb⟩ k r₂).2 := by
  intro k
  induction k with
  | zero => intro r₁ r₂ hr; exact ⟨rfl, hr⟩
  | succ k ih =>
    intro r₁ r₂ hr
    have hc := (hsim r₁ r₂ hr).2.1 crr.1 crr.2
    have hf2 := (hsim _ _ hc.2).2.1 fr.1 fr.2
    have hp := initPos_sim hsim mm _ _ hf2.2
    have hrest := ih _ _ hp.2
    constructor
    · simp [initIndividuals, hc.1, hf2.1, hp.1, hrest.1]
    · simpa [initIndividuals] using hrest.2

theorem new_sim (hsim : RngSim ops₁ ops₂ R) (mm : List (ℚ × ℚ))
    (crr : ℚ × ℚ) (crp : ℚ) (fr : ℚ × ℚ) (fp : ℚ) (np : Nat)
    (r₁ : ρ₁) (r₂ : ρ₂) (hr : R r₁ r₂) :
    OptRel (PopRel R)
      (Population.new C ops₁ ⟨mm, crr, crp, fr, fp, np, r₁⟩)
      (Population.new C ops₂ ⟨mm, crr, crp, fr, fp, np, r₂⟩) := by
  have hinit := initIndividuals_sim (C := C) hsim mm crr crp fr fp np r₁ r₂
    np r₁ r₂ hr
  simp only [Population.new]
  by_cases hlen : 1 ≤ mm.length
  · rw [if_pos hlen, if_pos hlen]
    exact ⟨hinit.1, rfl, rfl, rfl, rfl, rfl, rfl, rfl, rfl, rfl, rfl,
      rfl, hinit.2⟩
  · rw [if_neg hlen, if_neg hlen]
    trivial

theorem sampleAvoid_sim (hsim : RngSim ops₁ ops₂ R) (n : Nat)
    (avoid : List Nat) :
    ∀ (fuel : Nat) (r₁ : ρ₁) (r₂ : ρ₂), R r₁ r₂ →
      OptRel (fun v₁ v₂ => v₁.1 = v₂.1 ∧ R v₁.2 v₂.2)
        (sampleAvoid ops₁ n avoid fuel r₁)
        (sampleAvoid ops₂ n avoid fuel r₂) := by
  intro fuel
  induction fuel with
  | zero =>
    intro r₁ r₂ hr
    have h1 := (hsim r₁ r₂ hr).1 n
    simp only [sampleAvoid]
    rw [h1.1]
    by_cases hmem : (ops₂.sampleNat r₂ n).1 ∈ avoid
    · rw [if_pos hmem, if_pos hmem]
      trivial
    · rw [if_neg hmem, if_neg hmem]
      exact ⟨h1.1, h1.2⟩
  | succ fuel ih =>
    intro r₁ r₂ hr
    have h1 := (hsim r₁ r₂ hr).1 n
    simp only [sampleAvoid]
    rw [h1.1]
    by_cases hmem : (ops₂.sampleNat r₂ n).1 ∈ avoid
    · rw [if_pos hmem, if_pos hmem]
      exact ih _ _ h1.2
    · rw [if_neg hmem, if_neg hmem]
      exact ⟨h1.1, h1.2⟩

theorem adaptParam_sim (hsim : RngSim ops₁ ops₂ R) (cp : ℚ)
    (range : ℚ × ℚ) (inh : ℚ) {r₁ : ρ₁} {r₂ : ρ₂} (hr : R r₁ r₂) :
    (adaptParam ops₁ r₁ cp range inh).1 =
      (adaptParam ops₂ r₂ cp range inh).1 ∧
    R (adaptParam ops₁ r₁ cp range inh).2
      (adaptParam ops₂ r₂ cp range inh).2 := by
  have hu := (hsim r₁ r₂ hr).2.2
  simp only [adaptParam]
  rw [hu.1]
  by_cases hc : (ops₂.genUnit r₂).1 < cp
  · rw [if_pos hc, if_pos hc]
    exact (hsim _ _ hu.2).2.1 range.1 range.2
  · rw [if_neg hc, if_neg hc]
    exact ⟨rfl, hu.2⟩

theorem mutDims_sim (hsim : RngSim ops₁ ops₂ R) (forced : Nat)
    (cr f : ℚ) (bpos b1 b2 b3 : List ℚ) :
    ∀ (k d : Nat) (r₁ : ρ₁) (r₂ : ρ₂), R r₁ r₂ →
      (mutDims ops₁ forced cr f bpos b1 b2 b3 d k r₁).1 =
        (mutDims ops₂ forced cr f bpos b1 b2 b3 d k r₂).1 ∧
      R (mutDims ops₁ forced cr f bpos b1 b2 b3 d k r₁).2
        (mutDims ops₂ forced cr f bpos b1 b2 b3 d k r₂).2 := by
  intro k
  induction k with
  | zero => intro d r₁ r₂ hr; exact ⟨rfl, hr⟩
  | succ k ih =>
    intro d r₁ r₂ hr
    by_cases hd : d = forced
    · have hrest := ih (d + 1) r₁ r₂ hr
      rw [hd] at hrest
      constructor
      · simp [mutDims, hd, hrest.1]
      · simpa [mutDims, hd] using hrest.2
    · have hu := (hsim r₁ r₂ hr).2.2
      have hrest := ih (d + 1) _ _ hu.2
      constructor
      · simp [mutDims, hd, hu.1, hrest.1]
      · simpa [mutDims, hd] using hrest.2

theorem updateSlot_sim (hsim : RngSim ops₁ ops₂ R) (fuel n dim : Nat)
    (crR fR : ℚ × ℚ) (crP fP : ℚ) (bArr : List (Individual C))
    (bi : Individual C) {r₁ : ρ₁} {r₂ : ρ₂} (hr : R r₁ r₂) :
    OptRel (fun y₁ y₂ => y₁.1 = y₂.1 ∧ R y₁.2 y₂.2)
      (updateSlot ops₁ fuel n dim crR fR crP fP bArr bi r₁)
      (updateSlot ops₂ fuel n dim crR fR crP fP bArr bi r₂) := by
  unfold updateSlot
  rcases optRel_cases (sampleAvoid_sim hsim n [] fuel r₁ r₂ hr) with
    ⟨e1, e1'⟩ | ⟨v1, v2, e1, e1', hv⟩
  · simp only [e1, e1']
    trivial
  · simp only [e1, e1', hv.1]
    rcases optRel_cases (sampleAvoid_sim hsim n [v2.1] fuel v1.2 v2.2 hv.2)
      with ⟨e2, e2'⟩ | ⟨w1, w2, e2, e2', hw⟩
    · simp only [e2, e2']
      trivial
    · simp only [e2, e2', hw.1]
      rcases optRel_cases
        (sampleAvoid_sim hsim n [v2.1, w2.1] fuel w1.2 w2.2 hw.2)
        with ⟨e3, e3'⟩ | ⟨x1, x2, e3, e3', hx⟩
      · simp only [e3, e3']
        trivial
      · simp only [e3, e3', hx.1]
        have hcr := adaptParam_sim hsim crP crR bi.cr hx.2
        have hf := adaptParam_sim hsim fP fR bi.f hcr.2
        have hnat := (hsim _ _ hf.2).1 dim
        simp only [hcr.1, hf.1, hnat.1]
        exact ⟨by rw [(mutDims_sim hsim _ _ _ _ _ _ _ dim 0 _ _ hnat.2).1],
          (mutDims_sim hsim _ _ _ _ _ _ _ dim 0 _ _ hnat.2).2⟩

theorem updatePosGo_sim (hsim : RngSim ops₁ ops₂ R) (fuel n dim : Nat)
    (crR fR : ℚ × ℚ) (crP fP : ℚ) (bArr : List (Individual C)) :
    ∀ (k i : Nat) (r₁ : ρ₁) (r₂ : ρ₂), R r₁ r₂ →
      OptRel (fun x₁ x₂ => x₁.1 = x₂.1 ∧ R x₁.2 x₂.2)
        (updatePosGo ops₁ fuel n dim crR fR crP fP bArr i k r₁)
        (updatePosGo ops₂ fuel n dim crR fR crP fP bArr i k r₂) := by
  intro k
  induction k with
  | zero => intro i r₁ r₂ hr; exact ⟨rfl, hr⟩
  | succ k ih =>
    intro i r₁ r₂ hr
    simp only [updatePosGo]
    rcases optRel_cases (updateSlot_sim hsim fuel n dim crR fR crP fP bArr
      (bArr.getD i default) hr) with ⟨e1, e1'⟩ | ⟨y1, y2, e1, e1', hy⟩
    · simp only [e1, e1']
      trivial
    · simp only [e1, e1']
      rcases optRel_cases (ih (i + 1) y1.2 y2.2 hy.2) with
        ⟨e2, e2'⟩ | ⟨z1, z2, e2, e2', hz⟩
      · simp only [e2, e2']
        trivial
      · simp only [e2, e2']
        exact ⟨by rw [hy.1, hz.1], hz.2⟩

theorem popRel_update_best {p₁ : Population ρ₁ C} {p₂ : Population ρ₂ C}
    (h : PopRel R p₁ p₂) : PopRel R p₁.update_best p₂.update_best := by
  obtain ⟨hc, hb, h3, h4, h5, h6, h7, h8, h9, h10, h11, h12, h13⟩ := h
  refine ⟨?_, ?_, h3, h4, h5, h6, h7, h8, h9, h10, h11, h12, h13⟩
  · show (updateBestGo p₁.curr p₁.best).1 = (updateBestGo p₂.curr p₂.best).1
    rw [hc, hb]
  · show (updateBestGo p₁.curr p₁.best).2 = (updateBestGo p₂.curr p₂.best).2
    rw [hc, hb]

theorem popRel_evalCore (costf : List ℚ → C) {p₁ : Population ρ₁ C}
    {p₂ : Population ρ₂ C} (h : PopRel R p₁ p₂) :
    PopRel R (evalCore costf p₁) (evalCore costf p₂) := by
  obtain ⟨hc, hb, h3, h4, h5, h6, h7, h8, h9, h10, h11, h12, h13⟩ := h
  refine ⟨?_, ?_, ?_, ?_, ?_, ?_, ?_, ?_, ?_, ?_, ?_, ?_, ?_⟩ <;>
    simp only [evalCore, hc, hb, h3, h4, h5, h6, h7, h8, h9, h10, h11,
      h12] <;>
    first
    | rfl
    | exact h13

theorem update_positions_sim (hsim : RngSim ops₁ ops₂ R) (fuel : Nat)
    {p₁ : Population ρ₁ C} {p₂ : Population ρ₂ C} (h : PopRel R p₁ p₂) :
    OptRel (PopRel R) (Population.update_positions ops₁ fuel p₁)
      (Population.update_positions ops₂ fuel p₂) := by
  obtain ⟨hc, hb, h3, h4, h5, h6, h7, h8, h9, h10, h11, h12, h13⟩ := h
  simp only [Population.update_positions, hc, hb, h3, h4, h5, h6, h7, h8,
    h9, h10, h11, h12]
  rcases optRel_cases (updatePosGo_sim hsim fuel p₂.pop_size p₂.dim
    p₂.cr_min_max p₂.f_min_max p₂.cr_change_probability
    p₂.f_change_probability p₂.best p₂.curr.length 0 p₁.rng p₂.rng h13)
    with ⟨e1, e1'⟩ | ⟨x1, x2, e1, e1', hx⟩
  · simp only [e1, e1', Option.map_none']
    trivial
  · simp only [e1, e1', Option.map_some']
    exact ⟨hx.1, rfl, rfl, rfl, rfl, rfl, rfl, rfl, rfl, rfl, rfl, rfl,
      hx.2⟩

theorem eval_sim (hsim : RngSim ops₁ ops₂ R) (fuel : Nat)
    (costf : List ℚ → C) {p₁ : Population ρ₁ C} {p₂ : Population ρ₂ C}
    (h : PopRel R p₁ p₂) :
    OptRel (PopRel R) (Population.eval ops₁ fuel costf p₁)
      (Population.eval ops₂ fuel costf p₂) := by
  have h12 : p₁.pop_countdown = p₂.pop_countdown :=
    h.2.2.2.2.2.2.2.2.2.2.2.1
  unfold Population.eval
  by_cases hcd : p₂.pop_countdown = 0
  · rw [if_pos (by rw [h12]; exact hcd), if_pos hcd]
    rcases optRel_cases (update_positions_sim hsim fuel
      (popRel_update_best h)) with ⟨e1, e1'⟩ | ⟨q1, q2, e1, e1', hq⟩
    · simp only [e1, e1', Option.map_none']
      trivial
    · simp only [e1, e1', Option.map_some']
      refine popRel_evalCore costf ?_
      obtain ⟨k1, k2, k3, k4, k5, k6, k7, k8, k9, k10, k11, k12, k13⟩ := hq
      exact ⟨k1, k2, k3, k4, k5, k6, k7, k8, k9, k10, k11,
        by show q1.curr.length = q2.curr.length; rw [k1], k13⟩
  · rw [if_neg (by rw [h12]; exact hcd), if_neg hcd]
    exact popRel_evalCore costf h

theorem evalArg_sim (hsim : RngSim ops₁ ops₂ R) (fuel : Nat)
    {p₁ : Population ρ₁ C} {p₂ : Population ρ₂ C} (h : PopRel R p₁ p₂) :
    Population.evalArg ops₁ fuel p₁ = Population.evalArg ops₂ fuel p₂ := by
  have h12 : p₁.pop_countdown = p₂.pop_countdown :=
    h.2.2.2.2.2.2.2.2.2.2.2.1
  have hc : p₁.curr = p₂.curr := h.1
  unfold Population.evalArg
  by_cases hcd : p₂.pop_countdown = 0
  · rw [if_pos (by rw [h12]; exact hcd), if_pos hcd]
    rcases optRel_cases (update_positions_sim hsim fuel
      (popRel_update_best h)) with ⟨e1, e1'⟩ | ⟨q1, q2, e1, e1', hq⟩
    · rw [e1, e1']
      rfl
    · rw [e1, e1']
      simp only [Option.map_some']
      rw [hq.1]
  · rw [if_neg (by rw [h12]; exact hcd), if_neg hcd]
    rw [hc, h12]

theorem bestPair_rel {p₁ : Population ρ₁ C} {p₂ : Population ρ₂ C}
    (h : PopRel R p₁ p₂) : p₁.bestPair = p₂.bestPair := by
  obtain ⟨hc, hb, h3, -⟩ := h
  unfold Population.bestPair
  simp only [hc, hb, h3]

theorem traj_sim (hsim : RngSim ops₁ ops₂ R) (fuel : Nat)
    (costf : List ℚ → C) (mm : List (ℚ × ℚ)) (crr : ℚ × ℚ) (crp : ℚ)
    (fr : ℚ × ℚ) (fp : ℚ) (np : Nat) (r₁ : ρ₁) (r₂ : ρ₂)
    (hr : R r₁ r₂) :
    ∀ n : Nat, OptRel (PopRel R)
      (traj C ops₁ fuel costf ⟨mm, crr, crp, fr, fp, np, r₁⟩ n)
      (traj C ops₂ fuel costf ⟨mm, crr, crp, fr, fp, np, r₂⟩ n) := by
  intro n
  induction n with
  | zero => exact new_sim hsim mm crr crp fr fp np r₁ r₂ hr
  | succ n ih =>
    show OptRel (PopRel R)
      ((traj C ops₁ fuel costf ⟨mm, crr, crp, fr, fp, np, r₁⟩ n).bind
        (Population.eval ops₁ fuel costf))
      ((traj C ops₂ fuel costf ⟨mm, crr, crp, fr, fp, np, r₂⟩ n).bind
        (Population.eval ops₂ fuel costf))
    rcases optRel_cases ih with ⟨e, e'⟩ | ⟨q1, q2, e, e', hq⟩
    · rw [e, e']
      trivial
    · rw [e, e']
      exact eval_sim hsim fuel costf hq

/-- Claim C7: two populations constructed from settings with identical
content (bounds, ranges, probabilities, population size, cost function) but
possibly different random source implementations whose sources produce the
same stream (a bisimulation relating their states), stepped the same number
of times, fail together or produce populations agreeing on the position the
next evaluation will use, the cached best cost and the `best()` result, the
whole `current`/`best` arrays, and the evaluation count. -/
theorem claim_C7_determinism (fuel : Nat) (costf : List ℚ → C)
    (mm : List (ℚ × ℚ)) (crr fr : ℚ × ℚ) (crp fp : ℚ) (np : Nat)
    (r₁ : ρ₁) (r₂ : ρ₂) (hsim : RngSim ops₁ ops₂ R) (hr : R r₁ r₂) :
    ∀ n : Nat,
      (traj C ops₁ fuel costf ⟨mm, crr, crp, fr, fp, np, r₁⟩ n = none ∧
       traj C ops₂ fuel costf ⟨mm, crr, crp, fr, fp, np, r₂⟩ n = none) ∨
      (∃ (p₁ : Population ρ₁ C) (p₂ : Population ρ₂ C),
        traj C ops₁ fuel costf ⟨mm, crr, crp, fr, fp, np, r₁⟩ n = some p₁ ∧
        traj C ops₂ fuel costf ⟨mm, crr, crp, fr, fp, np, r₂⟩ n = some p₂ ∧
        Population.evalArg ops₁ fuel p₁ =
          Population.evalArg ops₂ fuel p₂ ∧
        p₁.best_cost_cache = p₂.best_cost_cache ∧
        p₁.bestPair = p₂.bestPair ∧
        p₁.curr = p₂.curr ∧ p₁.best = p₂.best ∧
        p₁.num_cost_evaluations = p₂.num_cost_evaluations) := by
  intro n
  rcases optRel_cases
    (traj_sim hsim fuel costf mm crr crp fr fp np r₁ r₂ hr n) with
    ⟨e, e'⟩ | ⟨q1, q2, e, e', hq⟩
  · exact Or.inl ⟨e, e'⟩
  · exact Or.inr ⟨q1, q2, e, e', evalArg_sim hsim fuel hq, hq.2.2.2.1,
      bestPair_rel hq, hq.1, hq.2.1, hq.2.2.2.2.1⟩

end Determinism

/-- A concrete queue for `listRng`: population size 3, one dimension with
bounds `(0,10)`; the first 9 entries drive construction (`cr`, `f`, one
position per individual, giving positions 1, 2, 3), the next 21 drive the
reproduction pass inside the 4th `eval` call (per slot: three index draws,
the `cr` and `f` adaptation draws, the forced-dimension draw), and the last
21 the pass inside the 7th call. -/
def wStream : List ℚ := [0, 0, 1/10, 0, 0, 2/10, 0, 0, 3/10,
  0, 1, 2, 1, 0, 1/4, 0,  1, 0, 2, 1, 0, 1, 0,  0, 1, 2, 1, 0, 1/2, 0,
  0, 1, 2, 1, 0, 0, 0,  0, 1, 2, 1, 0, 0, 0,  0, 1, 2, 1, 0, 3/4, 0]

/-- Concrete settings: one dimension, bounds `(0,10)`, `cr`/`f` ranges
`(0,1)`, change probabilities `1/2`, population size 3. -/
def wSettings : Settings (List ℚ) :=
  ⟨[(0, 10)], (0, 1), 1/2, (0, 1), 1/2, 3, wStream⟩

/-- A simple rational cost: the single position component itself. -/
def wCost : List ℚ → ℚ := fun pos => pos.getD 0 0

/-- The concrete freshly constructed population over `wSettings`
(and likewise the states after each `eval` call below, written out as
literals so that each evolution step is checked by a single evaluation). -/

def wP0 : Population (List ℚ) ℚ :=
  { curr := [{ pos := [1], cost := none, cr := 0, f := 0 }, { pos := [2], cost := none, cr := 0, f := 0 }, { pos := [3], cost := none, cr := 0, f := 0 }], best := [{ pos := [0], cost := none, cr := 0, f := 0 }, { pos := [0], cost := none, cr := 0, f := 0 }, { pos := [0], cost := none, cr := 0, f := 0 }], best_idx := none, best_cost_cache := none, num_cost_evaluations := 0, dim := 1, pop_size := 3, cr_min_max := (0, 1), f_min_max := (0, 1), cr_change_probability := (1/2 : ℚ), f_change_probability := (1/2 : ℚ), pop_countdown := 3, rng := [0, 1, 2, 1, 0, (1/4 : ℚ), 0, 1, 0, 2, 1, 0, 1, 0, 0, 1, 2, 1, 0, (1/2 : ℚ), 0, 0, 1, 2, 1, 0, 0, 0, 0, 1, 2, 1, 0, 0, 0, 0, 1, 2, 1, 0, (3/4 : ℚ), 0] }

def wP1 : Population (List ℚ) ℚ :=
  { curr := [{ pos := [1], cost := none, cr := 0, f := 0 }, { pos := [2], cost := none, cr := 0, f := 0 }, { pos := [3], cost := some 3, cr := 0, f := 0 }], best := [{ pos := [0], cost := none, cr := 0, f := 0 }, { pos := [0], cost := none, cr := 0, f := 0 }, { pos := [0], cost := none, cr := 0, f := 0 }], best_idx := some 2, best_cost_cache := some 3, num_cost_evaluations := 1, dim := 1, pop_size := 3, cr_min_max := (0, 1), f_min_max := (0, 1), cr_change_probability := (1/2 : ℚ), f_change_probability := (1/2 : ℚ), pop_countdown := 2, rng := [0, 1, 2, 1, 0, (1/4 : ℚ), 0, 1, 0, 2, 1, 0, 1, 0, 0, 1, 2, 1, 0, (1/2 : ℚ), 0, 0, 1, 2, 1, 0, 0, 0, 0, 1, 2, 1, 0, 0, 0, 0, 1, 2, 1, 0, (3/4 : ℚ), 0] }

def wP2 : Population (List ℚ) ℚ :=
  { curr := [{ pos := [1], cost := none, cr := 0, f := 0 }, { pos := [2], cost := some 2, cr := 0, f := 0 }, { pos := [3], cost := some 3, cr := 0, f := 0 }], best := [{ pos := [0], cost := none, cr := 0, f := 0 }, { pos := [0], cost := none, cr := 0, f := 0 }, { pos := [0], cost := none, cr := 0, f := 0 }], best_idx := some 1, best_cost_cache := some 2, num_cost_evaluations := 2, dim := 1, pop_size := 3, cr_min_max := (0, 1), f_min_max := (0, 1), cr_change_probability := (1/2 : ℚ), f_change_probability := (1/2 : ℚ), pop_countdown := 1, rng := [0, 1, 2, 1, 0, (1/4 : ℚ), 0, 1, 0, 2, 1, 0, 1, 0, 0, 1, 2, 1, 0, (1/2 : ℚ), 0, 0, 1, 2, 1, 0, 0, 0, 0, 1, 2, 1, 0, 0, 0, 0, 1, 2, 1, 0, (3/4 : ℚ), 0] }

def wP3 : Population (List ℚ) ℚ :=
  { curr := [{ pos := [1], cost := some 1, cr := 0, f := 0 }, { pos := [2], cost := some 2, cr := 0, f := 0 }, { pos := [3], cost := some 3, cr := 0, f := 0 }], best := [{ pos := [0], cost := none, cr := 0, f := 0 }, { pos := [0], cost := none, cr := 0, f := 0 }, { pos := [0], cost := none, cr := 0, f := 0 }], best_idx := some 0, best_cost_cache := some 1, num_cost_evaluations := 3, dim := 1, pop_size := 3, cr_min_max := (0, 1), f_min_max := (0, 1), cr_change_probability := (1/2 : ℚ), f_change_probability := (1/2 : ℚ), pop_countdown := 0, rng := [0, 1, 2, 1, 0, (1/4 : ℚ), 0, 1, 0, 2, 1, 0, 1, 0, 0, 1, 2, 1, 0, (1/2 : ℚ), 0, 0, 1, 2, 1, 0, 0, 0, 0, 1, 2, 1, 0, 0, 0, 0, 1, 2, 1, 0, (3/4 : ℚ), 0] }

def wP4 : Population (List ℚ) ℚ :=
  { curr := [{ pos := [(11/4 : ℚ)], cost := none, cr := 0, f := (1/4 : ℚ) }, { pos := [4], cost := none, cr := 0, f := 1 }, { pos := [(5/2 : ℚ)], cost := some (5/2 : ℚ), cr := 0, f := (1/2 : ℚ) }], best := [{ pos := [1], cost := some 1, cr := 0, f := 0 }, { pos := [2], cost := some 2, cr := 0, f := 0 }, { pos := [3], cost := some 3, cr := 0, f := 0 }], best_idx := some 0, best_cost_cache := some 1, num_cost_evaluations := 4, dim := 1, pop_size := 3, cr_min_max := (0, 1), f_min_max := (0, 1), cr_change_probability := (1/2 : ℚ), f_change_probability := (1/2 : ℚ), pop_countdown := 2, rng := [0, 1, 2, 1, 0, 0, 0, 0, 1, 2, 1, 0, 0, 0, 0, 1, 2, 1, 0, (3/4 : ℚ), 0] }

set_option maxHeartbeats 400000 in
theorem wNew : Population.new ℚ listRng wSettings = some wP0 := by
  with_unfolding_all decide

set_option maxHeartbeats 400000 in
theorem wStep1 : Population.eval listRng 10 wCost wP0 = some wP1 := by
  with_unfolding_all decide

set_option maxHeartbeats 400000 in
theorem wStep2 : Population.eval listRng 10 wCost wP1 = some wP2 := by
  with_unfolding_all decide

set_option maxHeartbeats 400000 in
theorem wStep3 : Population.eval listRng 10 wCost wP2 = some wP3 := by
  with_unfolding_all decide

set_option maxHeartbeats 2000000 in
theorem wStep4 : Population.eval listRng 10 wCost wP3 = some wP4 := by
  with_unfolding_all decide

theorem wTraj0 : traj ℚ listRng 10 wCost wSettings 0 = some wP0 := wNew

theorem wTraj1 : traj ℚ listRng 10 wCost wSettings 1 = some wP1 := by
  show (traj ℚ listRng 10 wCost wSettings 0).bind _ = _
  rw [wTraj0]
  exact wStep1

theorem wTraj2 : traj ℚ listRng 10 wCost wSettings 2 = some wP2 := by
  show (traj ℚ listRng 10 wCost wSettings 1).bind _ = _
  rw [wTraj1]
  exact wStep2

theorem wTraj3 : traj ℚ listRng 10 wCost wSettings 3 = some wP3 := by
  show (traj ℚ listRng 10 wCost wSettings 2).bind _ = _
  rw [wTraj2]
  exact wStep3

theorem wTraj4 : traj ℚ listRng 10 wCost wSettings 4 = some wP4 := by
  show (traj ℚ listRng 10 wCost wSettings 3).bind _ = _
  rw [wTraj3]
  exact wStep4

/-- Claim C5 counterexample: for the concrete population of size 3, after
exactly `pop_size = 3` calls to `eval` the countdown is `0`, not
`pop_size`; the claimed value `3` is wrong (the selection/reproduction pass
happens only inside call 4). -/
theorem claim_C5_counterexample :
    (traj ℚ listRng 10 wCost wSettings 3).map (·.pop_countdown) = some 0 ∧
    (traj ℚ listRng 10 wCost wSettings 3).map (·.pop_size) = some 3 ∧
    (0 : Nat) ≠ 3 := by
  rw [wTraj3]
  refine ⟨rfl, rfl, by decide⟩

/-- Claim C5 witness: the amended statement applied at the concrete size-3
population; after `pop_size + 1 = 4` calls the countdown is `2`. -/
theorem claim_C5_witness :
    (0 < wSettings.pop_size ∧
     Population.new ℚ listRng wSettings = some wP0) ∧
    traj ℚ listRng 10 wCost wSettings (wSettings.pop_size + 1) = some wP4 ∧
    (wP4.pop_countdown = wSettings.pop_size - 1 ∧
     wP4.pop_countdown ≠ wSettings.pop_size) :=
  ⟨⟨by decide, wNew⟩, wTraj4,
   (claim_C5_amended listRng 10 wCost wSettings wP0 (by decide)
      wNew).2.2.2 wP4 wTraj4⟩

/-- A concrete population for the selection-tie witness: slot 0 holds equal
costs `5` on both sides, with different position buffers. -/
def c2pop : Population (List ℚ) ℚ :=
  { curr := [⟨[1], some 5, 0, 0⟩], best := [⟨[2], some 5, 0, 0⟩],
    best_idx := none, best_cost_cache := none, num_cost_evaluations := 0,
    dim := 1, pop_size := 1, cr_min_max := (0, 1), f_min_max := (0, 1),
    cr_change_probability := 0, f_change_probability := 0,
    pop_countdown := 1, rng := [] }

/-- Claim C2 witness: with equal costs on both sides of slot 0,
`update_best` swaps (non-strict `≤`), observable on the position buffers. -/
theorem claim_C2_witness :
    (0 < c2pop.curr.length ∧ 0 < c2pop.best.length) ∧
    (((c2pop.update_best.curr.getD 0 default,
        c2pop.update_best.best.getD 0 default) =
      if swapCond (c2pop.curr.getD 0 default) (c2pop.best.getD 0 default)
      then (c2pop.best.getD 0 default, c2pop.curr.getD 0 default)
      else (c2pop.curr.getD 0 default, c2pop.best.getD 0 default)) ∧
    (swapCond (c2pop.curr.getD 0 default) (c2pop.best.getD 0 default) = true ↔
      ((c2pop.best.getD 0 default).cost = none ∨
       ∃ cc bb, (c2pop.curr.getD 0 default).cost = some cc ∧
         (c2pop.best.getD 0 default).cost = some bb ∧ cc ≤ bb)) ∧
    (∀ b0, (c2pop.best.getD 0 default).cost = some b0 →
      ∃ b1, (c2pop.update_best.best.getD 0 default).cost = some b1 ∧
        b1 ≤ b0)) ∧
    (swapCond (c2pop.curr.getD 0 default) (c2pop.best.getD 0 default) = true ∧
     (c2pop.update_best.best.getD 0 default).pos = [1] ∧
     (c2pop.update_best.curr.getD 0 default).pos = [2]) :=
  ⟨⟨by decide, by decide⟩,
   claim_C2_update_best_spec c2pop 0 (by decide) (by decide),
   by with_unfolding_all decide, by with_unfolding_all decide,
   by with_unfolding_all decide⟩

/-- Claim C3 witness: one concrete `eval` call increments the counter. -/
theorem claim_C3_witness :
    Population.eval listRng 10 wCost wP0 = some wP1 ∧
    wP1.num_cost_evaluations = wP0.num_cost_evaluations + 1 :=
  ⟨wStep1,
   (claim_C3_eval_counts listRng 10 wCost wCost wSettings wP0 wP1 wP0).2.1
     wStep1⟩

/-- A concrete population at a generation boundary (countdown 0), with
personal-best positions 1, 2, 3 and a 21-entry queue driving one
reproduction pass. -/
def c1pop : Population (List ℚ) ℚ :=
  { curr := [⟨[0], none, 0, 0⟩, ⟨[0], none, 0, 0⟩, ⟨[0], none, 0, 0⟩],
    best := [⟨[1], none, 0, 0⟩, ⟨[2], none, 0, 0⟩, ⟨[3], none, 0, 0⟩],
    best_idx := none, best_cost_cache := none, num_cost_evaluations := 0,
    dim := 1, pop_size := 3, cr_min_max := (0, 1), f_min_max := (0, 1),
    cr_change_probability := 1/2, f_change_probability := 1/2,
    pop_countdown := 0,
    rng := [0, 1, 2, 1, 0, 1/4, 0,  1, 0, 2, 1, 0, 1, 0,
            0, 1, 2, 1, 0, 1/2, 0] }

/-- The result of one reproduction pass on `c1pop`. -/
def c1pop' : Population (List ℚ) ℚ :=
  { curr := [⟨[11/4], none, 0, 1/4⟩, ⟨[4], none, 0, 1⟩,
             ⟨[5/2], none, 0, 1/2⟩],
    best := [⟨[1], none, 0, 0⟩, ⟨[2], none, 0, 0⟩, ⟨[3], none, 0, 0⟩],
    best_idx := none, best_cost_cache := none, num_cost_evaluations := 0,
    dim := 1, pop_size := 3, cr_min_max := (0, 1), f_min_max := (0, 1),
    cr_change_probability := 1/2, f_change_probability := 1/2,
    pop_countdown := 0, rng := [] }

set_option maxHeartbeats 2000000 in
theorem c1run : Population.update_positions listRng 10 c1pop = some c1pop' := by
  with_unfolding_all decide

/-- Claim C1 witness: the per-slot reproduction characterization applied to
the concrete boundary population `c1pop`. -/
theorem claim_C1_witness :
    (listRng.NatBounded ∧ 0 < c1pop.pop_size ∧
     Population.update_positions listRng 10 c1pop = some c1pop') ∧
    (∀ i, i < c1pop.curr.length →
      ∃ (id1 id2 id3 : Nat) (cr f : ℚ) (forced : Nat) (r6 : List ℚ),
        id1 < c1pop.pop_size ∧ id2 < c1pop.pop_size ∧ id3 < c1pop.pop_size ∧
        id2 ≠ id1 ∧ id3 ≠ id1 ∧ id3 ≠ id2 ∧
        (c1pop'.curr.getD i default).cost = none ∧
        (c1pop'.curr.getD i default).cr = cr ∧
        (c1pop'.curr.getD i default).f = f ∧
        (c1pop'.curr.getD i default).pos.length = c1pop.dim ∧
        (∀ d, d < c1pop.dim → (c1pop'.curr.getD i default).pos.getD d 0 =
          (if d = forced ∨
              (listRng.genUnit (rngFrom listRng forced 0 d r6)).1 < cr
           then (c1pop.best.getD id3 default).pos.getD d 0 +
             f * ((c1pop.best.getD id1 default).pos.getD d 0 -
                  (c1pop.best.getD id2 default).pos.getD d 0)
           else (c1pop.best.getD i default).pos.getD d 0))) :=
  ⟨⟨listRng_natBounded, by decide, c1run⟩,
   claim_C1_update_positions_spec listRng 10 listRng_natBounded (by decide)
     c1run⟩

/-- A cost type with a genuinely partial order: pairs of rationals ordered
componentwise.  Rust's `C: PartialOrd + Clone` admits such types (the spec
explicitly allows partially ordered costs). -/
structure PairCost where
  a : ℚ
  b : ℚ
deriving DecidableEq, Repr

instance : PartialOrder PairCost where
  le x y := x.a ≤ y.a ∧ x.b ≤ y.b
  le_refl x := ⟨le_refl _, le_refl _⟩
  le_trans x y z h1 h2 := ⟨le_trans h1.1 h2.1, le_trans h1.2 h2.2⟩
  le_antisymm x y h1 h2 := by
    obtain ⟨xa, xb⟩ := x
    obtain ⟨ya, yb⟩ := y
    have ea : xa = ya := le_antisymm h1.1 h2.1
    have eb : xb = yb := le_antisymm h1.2 h2.2
    rw [ea, eb]

instance : DecidableRel ((· ≤ ·) : PairCost → PairCost → Prop) :=
  fun x y => inferInstanceAs (Decidable (x.a ≤ y.a ∧ x.b ≤ y.b))

instance : DecidableRel ((· < ·) : PairCost → PairCost → Prop) :=
  fun x y => decidable_of_iff (x ≤ y ∧ ¬ y ≤ x) (lt_iff_le_not_le).symm

/-- A partial-order-valued cost function on the one-dimensional positions
that the `wStream` run evaluates (1, 2, 3 in generation one; 5/2, 4, 11/4
in generation two; 9/4 in generation three). -/
def cexCost : List ℚ → PairCost := fun pos =>
  let x := pos.getD 0 0
  if x = 1 then ⟨5, 5⟩
  else if x = 2 then ⟨-1, 1⟩
  else if x = 3 then ⟨0, 0⟩
  else if x = 5/2 then ⟨1, 1⟩
  else if x = 4 then ⟨-1/2, -1⟩
  else if x = 11/4 then ⟨9, 9⟩
  else if x = 9/4 then ⟨7, 7⟩
  else ⟨100, 100⟩

def cT0 : Population (List ℚ) PairCost :=
  { curr := [{ pos := [1], cost := none, cr := 0, f := 0 }, { pos := [2], cost := none, cr := 0, f := 0 }, { pos := [3], cost := none, cr := 0, f := 0 }], best := [{ pos := [0], cost := none, cr := 0, f := 0 }, { pos := [0], cost := none, cr := 0, f := 0 }, { pos := [0], cost := none, cr := 0, f := 0 }], best_idx := none, best_cost_cache := none, num_cost_evaluations := 0, dim := 1, pop_size := 3, cr_min_max := (0, 1), f_min_max := (0, 1), cr_change_probability := (1/2 : ℚ), f_change_probability := (1/2 : ℚ), pop_countdown := 3, rng := [0, 1, 2, 1, 0, (1/4 : ℚ), 0, 1, 0, 2, 1, 0, 1, 0, 0, 1, 2, 1, 0, (1/2 : ℚ), 0, 0, 1, 2, 1, 0, 0, 0, 0, 1, 2, 1, 0, 0, 0, 0, 1, 2, 1, 0, (3/4 : ℚ), 0] }

def cT1 : Population (List ℚ) PairCost :=
  { curr := [{ pos := [1], cost := none, cr := 0, f := 0 }, { pos := [2], cost := none, cr := 0, f := 0 }, { pos := [3], cost := some { a := 0, b := 0 }, cr := 0, f := 0 }], best := [{ pos := [0], cost := none, cr := 0, f := 0 }, { pos := [0], cost := none, cr := 0, f := 0 }, { pos := [0], cost := none, cr := 0, f := 0 }], best_idx := some 2, best_cost_cache := some { a := 0, b := 0 }, num_cost_evaluations := 1, dim := 1, pop_size := 3, cr_min_max := (0, 1), f_min_max := (0, 1), cr_change_probability := (1/2 : ℚ), f_change_probability := (1/2 : ℚ), pop_countdown := 2, rng := [0, 1, 2, 1, 0, (1/4 : ℚ), 0, 1, 0, 2, 1, 0, 1, 0, 0, 1, 2, 1, 0, (1/2 : ℚ), 0, 0, 1, 2, 1, 0, 0, 0, 0, 1, 2, 1, 0, 0, 0, 0, 1, 2, 1, 0, (3/4 : ℚ), 0] }

def cT2 : Population (List ℚ) PairCost :=
  { curr := [{ pos := [1], cost := none, cr := 0, f := 0 }, { pos := [2], cost := some { a := -1, b := 1 }, cr := 0, f := 0 }, { pos := [3], cost := some { a := 0, b := 0 }, cr := 0, f := 0 }], best := [{ pos := [0], cost := none, cr := 0, f := 0 }, { pos := [0], cost := none, cr := 0, f := 0 }, { pos := [0], cost := none, cr := 0, f := 0 }], best_idx := some 2, best_cost_cache := some { a := 0, b := 0 }, num_cost_evaluations := 2, dim := 1, pop_size := 3, cr_min_max := (0, 1), f_min_max := (0, 1), cr_change_probability := (1/2 : ℚ), f_change_probability := (1/2 : ℚ), pop_countdown := 1, rng := [0, 1, 2, 1, 0, (1/4 : ℚ), 0, 1, 0, 2, 1, 0, 1, 0, 0, 1, 2, 1, 0, (1/2 : ℚ), 0, 0, 1, 2, 1, 0, 0, 0, 0, 1, 2, 1, 0, 0, 0, 0, 1, 2, 1, 0, (3/4 : ℚ), 0] }

def cT3 : Population (List ℚ) PairCost :=
  { curr := [{ pos := [1], cost := some { a := 5, b := 5 }, cr := 0, f := 0 }, { pos := [2], cost := some { a := -1, b := 1 }, cr := 0, f := 0 }, { pos := [3], cost := some { a := 0, b := 0 }, cr := 0, f := 0 }], best := [{ pos := [0], cost := none, cr := 0, f := 0 }, { pos := [0], cost := none, cr := 0, f := 0 }, { pos := [0], cost := none, cr := 0, f := 0 }], best_idx := some 2, best_cost_cache := some { a := 0, b := 0 }, num_cost_evaluations := 3, dim := 1, pop_size := 3, cr_min_max := (0, 1), f_min_max := (0, 1), cr_change_probability := (1/2 : ℚ), f_change_probability := (1/2 : ℚ), pop_countdown := 0, rng := [0, 1, 2, 1, 0, (1/4 : ℚ), 0, 1, 0, 2, 1, 0, 1, 0, 0, 1, 2, 1, 0, (1/2 : ℚ), 0, 0, 1, 2, 1, 0, 0, 0, 0, 1, 2, 1, 0, 0, 0, 0, 1, 2, 1, 0, (3/4 : ℚ), 0] }

def cT4 : Population (List ℚ) PairCost :=
  { curr := [{ pos := [(11/4 : ℚ)], cost := none, cr := 0, f := (1/4 : ℚ) }, { pos := [4], cost := none, cr := 0, f := 1 }, { pos := [(5/2 : ℚ)], cost := some { a := 1, b := 1 }, cr := 0, f := (1/2 : ℚ) }], best := [{ pos := [1], cost := some { a := 5, b := 5 }, cr := 0, f := 0 }, { pos := [2], cost := some { a := -1, b := 1 }, cr := 0, f := 0 }, { pos := [3], cost := some { a := 0, b := 0 }, cr := 0, f := 0 }], best_idx := some 2, best_cost_cache := some { a := 0, b := 0 }, num_cost_evaluations := 4, dim := 1, pop_size := 3, cr_min_max := (0, 1), f_min_max := (0, 1), cr_change_probability := (1/2 : ℚ), f_change_probability := (1/2 : ℚ), pop_countdown := 2, rng := [0, 1, 2, 1, 0, 0, 0, 0, 1, 2, 1, 0, 0, 0, 0, 1, 2, 1, 0, (3/4 : ℚ), 0] }

def cT5 : Population (List ℚ) PairCost :=
  { curr := [{ pos := [(11/4 : ℚ)], cost := none, cr := 0, f := (1/4 : ℚ) }, { pos := [4], cost := some { a := (-1/2 : ℚ), b := -1 }, cr := 0, f := 1 }, { pos := [(5/2 : ℚ)], cost := some { a := 1, b := 1 }, cr := 0, f := (1/2 : ℚ) }], best := [{ pos := [1], cost := some { a := 5, b := 5 }, cr := 0, f := 0 }, { pos := [2], cost := some { a := -1, b := 1 }, cr := 0, f := 0 }, { pos := [3], cost := some { a := 0, b := 0 }, cr := 0, f := 0 }], best_idx := some 1, best_cost_cache := some { a := (-1/2 : ℚ), b := -1 }, num_cost_evaluations := 5, dim := 1, pop_size := 3, cr_min_max := (0, 1), f_min_max := (0, 1), cr_change_probability := (1/2 : ℚ), f_change_probability := (1/2 : ℚ), pop_countdown := 1, rng := [0, 1, 2, 1, 0, 0, 0, 0, 1, 2, 1, 0, 0, 0, 0, 1, 2, 1, 0, (3/4 : ℚ), 0] }

def cT6 : Population (List ℚ) PairCost :=
  { curr := [{ pos := [(11/4 : ℚ)], cost := some { a := 9, b := 9 }, cr := 0, f := (1/4 : ℚ) }, { pos := [4], cost := some { a := (-1/2 : ℚ), b := -1 }, cr := 0, f := 1 }, { pos := [(5/2 : ℚ)], cost := some { a := 1, b := 1 }, cr := 0, f := (1/2 : ℚ) }], best := [{ pos := [1], cost := some { a := 5, b := 5 }, cr := 0, f := 0 }, { pos := [2], cost := some { a := -1, b := 1 }, cr := 0, f := 0 }, { pos := [3], cost := some { a := 0, b := 0 }, cr := 0, f := 0 }], best_idx := some 1, best_cost_cache := some { a := (-1/2 : ℚ), b := -1 }, num_cost_evaluations := 6, dim := 1, pop_size := 3, cr_min_max := (0, 1), f_min_max := (0, 1), cr_change_probability := (1/2 : ℚ), f_change_probability := (1/2 : ℚ), pop_countdown := 0, rng := [0, 1, 2, 1, 0, 0, 0, 0, 1, 2, 1, 0, 0, 0, 0, 1, 2, 1, 0, (3/4 : ℚ), 0] }

def cT7 : Population (List ℚ) PairCost :=
  { curr := [{ pos := [3], cost := none, cr := 0, f := 0 }, { pos := [3], cost := none, cr := 0, f := 0 }, { pos := [(9/4 : ℚ)], cost := some { a := 7, b := 7 }, cr := 0, f := (3/4 : ℚ) }], best := [{ pos := [1], cost := some { a := 5, b := 5 }, cr := 0, f := 0 }, { pos := [2], cost := some { a := -1, b := 1 }, cr := 0, f := 0 }, { pos := [3], cost := some { a := 0, b := 0 }, cr := 0, f := 0 }], best_idx := some 1, best_cost_cache := some { a := (-1/2 : ℚ), b := -1 }, num_cost_evaluations := 7, dim := 1, pop_size := 3, cr_min_max := (0, 1), f_min_max := (0, 1), cr_change_probability := (1/2 : ℚ), f_change_probability := (1/2 : ℚ), pop_countdown := 2, rng := [] }

set_option maxHeartbeats 400000 in
theorem cNew : Population.new PairCost listRng wSettings = some cT0 := by
  with_unfolding_all decide

set_option maxHeartbeats 400000 in
theorem cStep1 : Population.eval listRng 10 cexCost cT0 = some cT1 := by
  with_unfolding_all decide

set_option maxHeartbeats 400000 in
theorem cStep2 : Population.eval listRng 10 cexCost cT1 = some cT2 := by
  with_unfolding_all decide

set_option maxHeartbeats 400000 in
theorem cStep3 : Population.eval listRng 10 cexCost cT2 = some cT3 := by
  with_unfolding_all decide

set_option maxHeartbeats 2000000 in
theorem cStep4 : Population.eval listRng 10 cexCost cT3 = some cT4 := by
  with_unfolding_all decide

set_option maxHeartbeats 400000 in
theorem cStep5 : Population.eval listRng 10 cexCost cT4 = some cT5 := by
  with_unfolding_all decide

set_option maxHeartbeats 400000 in
theorem cStep6 : Population.eval listRng 10 cexCost cT5 = some cT6 := by
  with_unfolding_all decide

set_option maxHeartbeats 2000000 in
theorem cStep7 : Population.eval listRng 10 cexCost cT6 = some cT7 := by
  with_unfolding_all decide

theorem cTraj0 : traj PairCost listRng 10 cexCost wSettings 0 = some cT0 :=
  cNew

theorem cTraj1 : traj PairCost listRng 10 cexCost wSettings 1 = some cT1 := by
  show (traj PairCost listRng 10 cexCost wSettings 0).bind _ = _
  rw [cTraj0]
  exact cStep1

theorem cTraj2 : traj PairCost listRng 10 cexCost wSettings 2 = some cT2 := by
  show (traj PairCost listRng 10 cexCost wSettings 1).bind _ = _
  rw [cTraj1]
  exact cStep2

theorem cTraj3 : traj PairCost listRng 10 cexCost wSettings 3 = some cT3 := by
  show (traj PairCost listRng 10 cexCost wSettings 2).bind _ = _
  rw [cTraj2]
  exact cStep3

theorem cTraj4 : traj PairCost listRng 10 cexCost wSettings 4 = some cT4 := by
  show (traj PairCost listRng 10 cexCost wSettings 3).bind _ = _
  rw [cTraj3]
  exact cStep4

theorem cTraj5 : traj PairCost listRng 10 cexCost wSettings 5 = some cT5 := by
  show (traj PairCost listRng 10 cexCost wSettings 4).bind _ = _
  rw [cTraj4]
  exact cStep5

theorem cTraj6 : traj PairCost listRng 10 cexCost wSettings 6 = some cT6 := by
  show (traj PairCost listRng 10 cexCost wSettings 5).bind _ = _
  rw [cTraj5]
  exact cStep6

theorem cTraj7 : traj PairCost listRng 10 cexCost wSettings 7 = some cT7 := by
  show (traj PairCost listRng 10 cexCost wSettings 6).bind _ = _
  rw [cTraj6]
  exact cStep7

/-- Claim C4 counterexample: with a partially ordered cost type the
sequence of costs returned by `best()` is not non-increasing.  After
evaluation 4 `best()` returns cost `(0,0)`; after evaluation 5 it returns
`(-1,1)` (the cache moved to the incomparable improvement `(-1/2,-1)` at
slot 1, but `best()` resolves slot 1 to its `best`-side cost `(-1,1)`), and
`(-1,1) ≤ (0,0)` does not hold. -/
theorem claim_C4_counterexample :
    ((traj PairCost listRng 10 cexCost wSettings 4).bind
        Population.bestPair).map Prod.fst = some ⟨0, 0⟩ ∧
    ((traj PairCost listRng 10 cexCost wSettings 5).bind
        Population.bestPair).map Prod.fst = some ⟨-1, 1⟩ ∧
    ¬ ((⟨-1, 1⟩ : PairCost) ≤ ⟨0, 0⟩) := by
  rw [cTraj4, cTraj5]
  exact ⟨by with_unfolding_all decide, by with_unfolding_all decide,
    by with_unfolding_all decide⟩

/-- Claim C6 counterexample: with a partially ordered cost type, after 7
evaluations `best_idx = some 1` and `best_cost_cache = some (-1/2,-1)`, but
slot 1 holds `none` on the `curr` side (cleared by reproduction) and
`(-1,1)` on the `best` side (the incomparable `(-1/2,-1)` was not swapped
in by selection), so no cost at the indexed slot equals the cache. -/
theorem claim_C6_counterexample :
    (traj PairCost listRng 10 cexCost wSettings 7).map (·.best_idx) =
      some (some 1) ∧
    (traj PairCost listRng 10 cexCost wSettings 7).map (·.best_cost_cache) =
      some (some ⟨-1/2, -1⟩) ∧
    (traj PairCost listRng 10 cexCost wSettings 7).map
      (fun p => ((p.curr.getD 1 default).cost, (p.best.getD 1 default).cost))
      = some (none, some ⟨-1, 1⟩) ∧
    ((none : Option PairCost) ≠ some ⟨-1/2, -1⟩ ∧
     some (⟨-1, 1⟩ : PairCost) ≠ some ⟨-1/2, -1⟩) := by
  rw [cTraj7]
  exact ⟨by with_unfolding_all decide, by with_unfolding_all decide,
    by with_unfolding_all decide, by with_unfolding_all decide⟩

/-- Claim C10 witness: the safety conditions at the concrete
partial-order-valued population after 7 evaluations. -/
theorem claim_C10_witness :
    0 < wSettings.pop_size ∧
    ((∀ i, cT7.best_idx = some i →
      ((((cT7.curr.getD i default).cost).isSome = true ∨
        ((cT7.best.getD i default).cost).isSome = true) ∧
       ((cT7.curr.getD i default).cost = none →
        ((cT7.best.getD i default).cost).isSome = true))) ∧
    (cT7.bestPair = none ↔ cT7.num_cost_evaluations = 0)) :=
  ⟨by decide, claim_C10_best_safety listRng 10 cexCost 7 (by decide) cTraj7⟩

section StrongOrder

variable {ρ C : Type} [LinearOrder C]

theorem sinv_new {s : Settings ρ} {p : Population ρ C} (ops : RngOps ρ)
    (hn : 0 < s.pop_size) (h : Population.new C ops s = some p) :
    StrongInv p := by
  obtain ⟨-, -, -, -, f5, f6, -, -, f9, f10⟩ := new_fields ops h
  refine ⟨winv_new ops hn h, ?_, ?_, ?_⟩
  · intro _ x hx
    rcases hx with hx | hx <;> obtain ⟨ind, hmem, hcost⟩ := List.mem_map.mp hx
    · rw [f9 ind hmem] at hcost; exact Option.noConfusion hcost
    · rw [f10 ind hmem] at hcost; exact Option.noConfusion hcost
  · intro c hc
    rw [f6] at hc
    exact Option.noConfusion hc
  · intro i hi
    rw [f5] at hi
    exact Option.noConfusion hi

theorem sinv_evalCore (costf : List ℚ → C) {q : Population ρ C}
    (hs : StrongInv q) (hcd : 1 ≤ q.pop_countdown) :
    StrongInv (evalCore costf q) := by
  obtain ⟨hw, s8, s4, s6⟩ := hs
  have hidx : q.pop_countdown - 1 < q.curr.length := by
    obtain ⟨w1, w2, -, w4, -⟩ := hw
    omega
  refine ⟨winv_evalCore costf hw hcd, ?_, ?_, ?_⟩
  · -- the cache is never cleared by evalCore
    intro hc'
    exfalso
    rcases hc : q.best_cost_cache with _ | bc
    · rw [(evalCore_cache_improved costf (Or.inl hc)).2] at hc'
      exact Option.noConfusion hc'
    · by_cases hlt :
          costf ((q.curr.getD (q.pop_countdown - 1) default).pos) < bc
      · rw [(evalCore_cache_improved costf (Or.inr ⟨bc, hc, hlt⟩)).2] at hc'
        exact Option.noConfusion hc'
      · rw [(evalCore_cache_kept costf hc hlt).2] at hc'
        exact Option.noConfusion hc'
  · intro c hc' x hx
    rcases costIn_evalCore costf hx with hold | hnew
    · rcases hc : q.best_cost_cache with _ | bc
      · exact absurd hold (s8 hc x)
      · by_cases hlt :
            costf ((q.curr.getD (q.pop_countdown - 1) default).pos) < bc
        · rw [(evalCore_cache_improved costf (Or.inr ⟨bc, hc, hlt⟩)).2] at hc'
          have hcx := Option.some.inj hc'
          rw [← hcx]
          exact le_trans (le_of_lt hlt) (s4 bc hc x hold)
        · rw [(evalCore_cache_kept costf hc hlt).2] at hc'
          have hcx := Option.some.inj hc'
          rw [← hcx]
          exact s4 bc hc x hold
    · rcases hc : q.best_cost_cache with _ | bc
      · rw [(evalCore_cache_improved costf (Or.inl hc)).2] at hc'
        have hcx := Option.some.inj hc'
        rw [← hcx, hnew]
      · by_cases hlt :
            costf ((q.curr.getD (q.pop_countdown - 1) default).pos) < bc
        · rw [(evalCore_cache_improved costf (Or.inr ⟨bc, hc, hlt⟩)).2] at hc'
          have hcx := Option.some.inj hc'
          rw [← hcx, hnew]
        · rw [(evalCore_cache_kept costf hc hlt).2] at hc'
          have hcx := Option.some.inj hc'
          rw [← hcx, hnew]
          exact le_of_not_lt hlt
  · intro i hi
    rcases hc : q.best_cost_cache with _ | bc
    · obtain ⟨hb1, hb2⟩ := evalCore_cache_improved (q := q) costf (Or.inl hc)
      rw [hb1] at hi
      have hie := Option.some.inj hi
      subst hie
      refine ⟨_, hb2, Or.inl ⟨evalCore_stores costf q hidx, ?_⟩⟩
      exact le_of_eq (evalCore_fields costf q).2.2.1
    · by_cases hlt :
          costf ((q.curr.getD (q.pop_countdown - 1) default).pos) < bc
      · obtain ⟨hb1, hb2⟩ :=
          evalCore_cache_improved (q := q) costf (Or.inr ⟨bc, hc, hlt⟩)
        rw [hb1] at hi
        have hie := Option.some.inj hi
        subst hie
        refine ⟨_, hb2, Or.inl ⟨evalCore_stores costf q hidx, ?_⟩⟩
        exact le_of_eq (evalCore_fields costf q).2.2.1
      · obtain ⟨hb1, hb2⟩ := evalCore_cache_kept costf hc hlt
        rw [hb1] at hi
        obtain ⟨c, hcc, hside⟩ := s6 i hi
        rw [hc] at hcc
        have hcbc := Option.some.inj hcc
        rw [hcbc] at hb2
        refine ⟨c, hb2, ?_⟩
        rcases hside with ⟨hcur, hcd2⟩ | hbest
        · left
          have hne : i ≠ q.pop_countdown - 1 := by omega
          have hgd : (evalCore costf q).curr.getD i default =
              q.curr.getD i default :=
            getD_set_ne _ _ _ (fun he => hne he.symm)
          rw [hgd]
          refine ⟨hcur, ?_⟩
          rw [(evalCore_fields costf q).2.2.1]
          omega
        · right
          have hb : (evalCore costf q).best = q.best := rfl
          rw [hb]
          exact hbest

theorem sinv_boundary {p p2 : Population ρ C} (ops : RngOps ρ) (fuel : Nat)
    (hs : StrongInv p) (hcd : p.pop_countdown = 0)
    (hup : Population.update_positions ops fuel p.update_best = some p2) :
    StrongInv { p2 with pop_countdown := p2.curr.length } := by
  obtain ⟨hw, s8, s4, s6⟩ := hs
  have hwB := (winv_boundary ops fuel hw hcd hup).1
  obtain ⟨w1, w2, w3, w4, w5, w6, w7, w8⟩ := hw
  have hupf := update_positions_fields ops fuel hup
  have hub := update_best_fields p
  have hcostIn : ∀ x : C,
      CostIn ({ p2 with pop_countdown := p2.curr.length } : Population ρ C)
        x → CostIn p x := by
    intro x hx
    have hx2 : CostIn p2 x := hx
    exact costIn_update_best (costIn_update_positions ops fuel hup hx2)
  have hcache :
      Population.best_cost_cache
          { p2 with pop_countdown := p2.curr.length } =
        p.best_cost_cache := by
    show p2.best_cost_cache = _
    rw [hupf.2.2.1, hub.2.1]
  have hbidx :
      Population.best_idx { p2 with pop_countdown := p2.curr.length } =
        p.best_idx := by
    show p2.best_idx = _
    rw [hupf.2.1, hub.1]
  refine ⟨hwB, ?_, ?_, ?_⟩
  · intro hc x hx
    rw [hcache] at hc
    exact s8 hc x (hcostIn x hx)
  · intro c hc x hx
    rw [hcache] at hc
    exact s4 c hc x (hcostIn x hx)
  · intro i hi
    rw [hbidx] at hi
    obtain ⟨c, hcc, hside⟩ := s6 i hi
    obtain ⟨hilt, -⟩ := w8 i hi
    refine ⟨c, by rw [hcache]; exact hcc, Or.inr ?_⟩
    show (p2.best.getD i default).cost = some c
    rw [hupf.1]
    have hci : i < p.curr.length := by omega
    have hbi : i < p.best.length := by omega
    obtain ⟨a, ha⟩ := Option.isSome_iff_exists.mp
      (w5 i (by omega) (by omega))
    have h := updateBestGo_getD p.curr p.best i hci hbi
    show ((updateBestGo p.curr p.best).2.getD i default).cost = some c
    rw [h.2]
    have hcIa : CostIn p a := costIn_of_curr_getD hci ha
    by_cases hsw : swapCond (p.curr.getD i default) (p.best.getD i default)
        = true
    · rw [if_pos hsw]
      rcases hside with ⟨hcur, -⟩ | hbest
      · exact hcur
      · -- the curr cost a is ≤-below c (cache min) and swapCond gives a ≤ c
        have hle1 : c ≤ a := s4 c hcc a hcIa
        rcases (swapCond_iff _ _).mp hsw with hnone | ⟨cc, bb, hcc2, hbb, hle⟩
        · rw [hnone] at hbest
          exact Option.noConfusion hbest
        · rw [hbest] at hbb
          have hbc := Option.some.inj hbb
          rw [ha] at hcc2
          have hac := Option.some.inj hcc2
          rw [ha, hac]
          have : cc ≤ c := hbc ▸ hle
          rw [le_antisymm this (hac ▸ hle1)]
    · rw [if_neg hsw]
      rcases hside with ⟨hcur, -⟩ | hbest
      · exfalso
        apply hsw
        rw [swapCond_iff]
        rcases hbe : (p.best.getD i default).cost with _ | b
        · exact Or.inl rfl
        · refine Or.inr ⟨c, b, hcur, rfl, ?_⟩
          exact s4 c hcc b (costIn_of_best_getD hbi hbe)
      · exact hbest

theorem sinv_eval {p p' : Population ρ C} (ops : RngOps ρ) (fuel : Nat)
    (costf : List ℚ → C) (hs : StrongInv p)
    (h : Population.eval ops fuel costf p = some p') : StrongInv p' := by
  rcases eval_inv ops fuel costf h with ⟨hcd, p2, hup, rfl⟩ | ⟨hcd, rfl⟩
  · have hs2 := sinv_boundary ops fuel hs hcd hup
    have hge := (winv_boundary ops fuel hs.1 hcd hup).2
    exact sinv_evalCore costf hs2 (by simpa using hge)
  · exact sinv_evalCore costf hs (by omega)

theorem sinv_traj {s : Settings ρ} (ops : RngOps ρ) (fuel : Nat)
    (costf : List ℚ → C) (hn : 0 < s.pop_size) :
    ∀ (n : Nat) (p : Population ρ C),
      traj C ops fuel costf s n = some p → StrongInv p := by
  intro n
  induction n with
  | zero => intro p h; exact sinv_new ops hn h
  | succ n ih =>
    intro p h
    have h' : (traj C ops fuel costf s n).bind
        (Population.eval ops fuel costf) = some p := h
    cases htn : traj C ops fuel costf s n with
    | none => rw [htn] at h'; simp at h'
    | some pn =>
      rw [htn] at h'
      exact sinv_eval ops fuel costf (ih pn htn) h'

theorem evalCore_cache_mono (costf : List ℚ → C) {q : Population ρ C}
    {c : C} (hc : q.best_cost_cache = some c) :
    ∃ c', (evalCore costf q).best_cost_cache = some c' ∧ c' ≤ c := by
  by_cases hlt : costf ((q.curr.getD (q.pop_countdown - 1) default).pos) < c
  · exact ⟨_, (evalCore_cache_improved costf (Or.inr ⟨c, hc, hlt⟩)).2,
      le_of_lt hlt⟩
  · exact ⟨c, (evalCore_cache_kept costf hc hlt).2, le_refl c⟩

theorem eval_cache_mono {p p' : Population ρ C} (ops : RngOps ρ)
    (fuel : Nat) (costf : List ℚ → C)
    (h : Population.eval ops fuel costf p = some p') {c : C}
    (hc : p.best_cost_cache = some c) :
    ∃ c', p'.best_cost_cache = some c' ∧ c' ≤ c := by
  rcases eval_inv ops fuel costf h with ⟨hcd, p2, hup, rfl⟩ | ⟨hcd, rfl⟩
  · have hc2 : ({ p2 with pop_countdown := p2.curr.length } :
        Population ρ C).best_cost_cache = some c := by
      show p2.best_cost_cache = some c
      rw [(update_positions_fields ops fuel hup).2.2.1,
        (update_best_fields p).2.1]
      exact hc
    exact evalCore_cache_mono costf hc2
  · exact evalCore_cache_mono costf hc

theorem bestPair_cache {p : Population ρ C} (hs : StrongInv p) {c : C}
    (hc : p.best_cost_cache = some c) :
    ∃ pos, p.bestPair = some (c, pos) := by
  obtain ⟨hw, s8, s4, s6⟩ := hs
  obtain ⟨w1, w2, w3, -, -, w6, -, w8⟩ := hw
  rcases hbi : p.best_idx with _ | i
  · rw [w6.mp hbi] at hc
    exact Option.noConfusion hc
  obtain ⟨c', hcc, hside⟩ := s6 i hbi
  rw [hc] at hcc
  have hcc' := Option.some.inj hcc
  rw [← hcc'] at hside
  obtain ⟨hilt, -⟩ := w8 i hbi
  have hci : i < p.curr.length := by omega
  have hbli : i < p.best.length := by omega
  unfold Population.bestPair
  rw [hbi]
  rcases hcu : (p.curr.getD i default).cost with _ | a <;>
    rcases hbe : (p.best.getD i default).cost with _ | b
  · rcases hside with ⟨hcur, -⟩ | hbest
    · rw [hcu] at hcur; exact Option.noConfusion hcur
    · rw [hbe] at hbest; exact Option.noConfusion hbest
  · rcases hside with ⟨hcur, -⟩ | hbest
    · rw [hcu] at hcur; exact Option.noConfusion hcur
    · rw [hbe] at hbest
      have hbc := Option.some.inj hbest
      simp only [hcu, hbe]
      exact ⟨(p.best.getD i default).pos, by rw [hbc]⟩
  · rcases hside with ⟨hcur, -⟩ | hbest
    · rw [hcu] at hcur
      have hac := Option.some.inj hcur
      simp only [hcu, hbe]
      exact ⟨(p.curr.getD i default).pos, by rw [hac]⟩
    · rw [hbe] at hbest; exact Option.noConfusion hbest
  · have hca : c ≤ a := s4 c hc a (costIn_of_curr_getD hci hcu)
    have hcb : c ≤ b := s4 c hc b (costIn_of_best_getD hbli hbe)
    simp only [hcu, hbe]
    rcases hside with ⟨hcur, -⟩ | hbest
    · rw [hcu] at hcur
      have hac := Option.some.inj hcur
      by_cases hab : a < b
      · rw [if_pos hab]
        exact ⟨(p.curr.getD i default).pos, by rw [hac]⟩
      · rw [if_neg hab]
        have hba : b ≤ a := le_of_not_lt hab
        have : b = c := le_antisymm (hac ▸ hba) hcb
        exact ⟨(p.best.getD i default).pos, by rw [this]⟩
    · rw [hbe] at hbest
      have hbc := Option.some.inj hbest
      by_cases hab : a < b
      · exfalso
        rw [hbc] at hab
        exact absurd hca (not_le_of_lt hab)
      · rw [if_neg hab]
        exact ⟨(p.best.getD i default).pos, by rw [hbc]⟩

/-- Claim C4 (amended): over a totally ordered cost type, the cached best
cost — the value each iterator step yields — is non-increasing across every
`eval` call, and `best()` returns exactly the cached cost (before and after
the call), so the sequence of `best()` costs is non-increasing as well.
(For merely partially ordered cost types the `best()` sequence can fail to
be non-increasing; see the counterexample.) -/
theorem claim_C4_amended {s : Settings ρ} {p p' : Population ρ C}
    (ops : RngOps ρ) (fuel : Nat) (costf : List ℚ → C) (n : Nat)
    (hn : 0 < s.pop_size) (h : traj C ops fuel costf s n = some p)
    (h' : Population.eval ops fuel costf p = some p') :
    (∀ c, p.best_cost_cache = some c →
      ∃ c', p'.best_cost_cache = some c' ∧ c' ≤ c) ∧
    (∀ c, p.best_cost_cache = some c → ∃ pos, p.bestPair = some (c, pos)) ∧
    (∀ c', p'.best_cost_cache = some c' →
      ∃ pos, p'.bestPair = some (c', pos)) := by
  have hsp := sinv_traj ops fuel costf hn n p h
  have hsp' : StrongInv p' := sinv_eval ops fuel costf hsp h'
  exact ⟨fun c hc => eval_cache_mono ops fuel costf h' hc,
    fun c hc => bestPair_cache hsp hc,
    fun c' hc' => bestPair_cache hsp' hc'⟩

/-- Claim C6 (amended): over a totally ordered cost type, in every
reachable state `curr` and `best` have length `pop_size`, the countdown is
at most `pop_size`, and a present `global_best_index` indexes a slot at
which the `curr` or `best` cost equals `global_best_cost_cache`.  (For
merely partially ordered cost types the cache-equality part can fail; see
the counterexample.  Construction is assumed to use a positive population
size, which the `rand` crate enforces by aborting `Uniform::new(0, 0)`.) -/
theorem claim_C6_amended {s : Settings ρ} {p : Population ρ C}
    (ops : RngOps ρ) (fuel : Nat) (costf : List ℚ → C) (n : Nat)
    (hn : 0 < s.pop_size) (h : traj C ops fuel costf s n = some p) :
    p.curr.length = p.pop_size ∧ p.best.length = p.pop_size ∧
    p.pop_countdown ≤ p.pop_size ∧
    (∀ i, p.best_idx = some i → i < p.pop_size ∧
      ∃ c, p.best_cost_cache = some c ∧
        ((p.curr.getD i default).cost = some c ∨
         (p.best.getD i default).cost = some c)) := by
  obtain ⟨hw, -, -, s6⟩ := sinv_traj ops fuel costf hn n p h
  obtain ⟨-, w2, w3, w4, -, -, -, w8⟩ := hw
  refine ⟨w2, w3, w4, ?_⟩
  intro i hi
  obtain ⟨c, hcc, hside⟩ := s6 i hi
  refine ⟨(w8 i hi).1, c, hcc, ?_⟩
  rcases hside with ⟨hcur, -⟩ | hbest
  · exact Or.inl hcur
  · exact Or.inr hbest

end StrongOrder

/-- Claim C4 witness: the amended monotonicity applied to the concrete
rational-cost run across the boundary-crossing 4th call. -/
theorem claim_C4_witness :
    (0 < wSettings.pop_size ∧
     traj ℚ listRng 10 wCost wSettings 3 = some wP3 ∧
     Population.eval listRng 10 wCost wP3 = some wP4) ∧
    ((∀ c, wP3.best_cost_cache = some c →
      ∃ c', wP4.best_cost_cache = some c' ∧ c' ≤ c) ∧
    (∀ c, wP3.best_cost_cache = some c →
      ∃ pos, wP3.bestPair = some (c, pos)) ∧
    (∀ c', wP4.best_cost_cache = some c' →
      ∃ pos, wP4.bestPair = some (c', pos))) :=
  ⟨⟨by decide, wTraj3, wStep4⟩,
   claim_C4_amended listRng 10 wCost 3 (by decide) wTraj3 wStep4⟩

/-- Claim C6 witness: the amended invariant at the concrete rational-cost
state after 4 evaluations. -/
theorem claim_C6_witness :
    (0 < wSettings.pop_size ∧
     traj ℚ listRng 10 wCost wSettings 4 = some wP4) ∧
    (wP4.curr.length = wP4.pop_size ∧ wP4.best.length = wP4.pop_size ∧
     wP4.pop_countdown ≤ wP4.pop_size ∧
     (∀ i, wP4.best_idx = some i → i < wP4.pop_size ∧
       ∃ c, wP4.best_cost_cache = some c ∧
         ((wP4.curr.getD i default).cost = some c ∨
          (wP4.best.getD i default).cost = some c))) :=
  ⟨⟨by decide, wTraj4⟩,
   claim_C6_amended listRng 10 wCost 4 (by decide) wTraj4⟩

theorem listRng_degenerate_range :
    ∀ r : List ℚ, (listRng.sampleRange r (0 : ℚ) 0).1 = 0 := by
  intro r
  cases r with
  | nil => rfl
  | cons q t =>
    show (0 : ℚ) + q * (0 - 0) = 0
    ring

/-- Claim C8 witness: the degenerate-bounds scenario at the concrete
list-backed random source (which respects the degenerate range) with
population size 3. -/
theorem claim_C8_witness :
    ((∀ r : List ℚ, (listRng.sampleRange r (0 : ℚ) 0).1 = 0) ∧ 0 < 3) ∧
    ((∃ p0, Population.new ℚ listRng
        ⟨[(0, 0)], (0, 1), 1/2, (0, 1), 1/2, 3, [1/2]⟩ = some p0) ∧
     (∀ (n : Nat) (p : Population (List ℚ) ℚ),
        traj ℚ listRng 9 wCost
          ⟨[(0, 0)], (0, 1), 1/2, (0, 1), 1/2, 3, [1/2]⟩ n = some p →
        (∀ pos, Population.evalArg listRng 9 p = some pos → pos = [0]) ∧
        (1 ≤ n →
          p.best_cost_cache = some (wCost [0]) ∧
          ∃ bp, p.bestPair = some (wCost [0], bp)))) :=
  ⟨⟨listRng_degenerate_range, by decide⟩,
   claim_C8_degenerate_bounds listRng 9 wCost (0, 1) (0, 1) (1/2) (1/2) 3
     [1/2] listRng_degenerate_range (by decide)⟩

theorem listRng_sim_ctr :
    RngSim listRng listRngCtr (fun a b => a = b.1) := by
  intro r₁ r₂ hr
  obtain ⟨l, k⟩ := r₂
  cases hr
  refine ⟨fun n => ⟨?_, ?_⟩, fun lo hi => ⟨?_, ?_⟩, ?_, ?_⟩ <;>
    cases l <;> rfl

/-- Claim C7 witness: the determinism claim at two concrete random source
implementations over different state types (the plain queue, and the queue
paired with a draw counter) related by projection, started on the same
stream. -/
theorem claim_C7_witness :
    (RngSim listRng listRngCtr (fun a b => a = b.1) ∧
     ([1/2, 1/3] : List ℚ) = (([1/2, 1/3], 0) : List ℚ × Nat).1) ∧
    (∀ n : Nat,
      (traj ℚ listRng 9 wCost
          ⟨[(0, 10)], (0, 1), 1/2, (0, 1), 1/2, 2, [1/2, 1/3]⟩ n = none ∧
       traj ℚ listRngCtr 9 wCost
          ⟨[(0, 10)], (0, 1), 1/2, (0, 1), 1/2, 2,
            ([1/2, 1/3], 0)⟩ n = none) ∨
      (∃ (p₁ : Population (List ℚ) ℚ) (p₂ : Population (List ℚ × Nat) ℚ),
        traj ℚ listRng 9 wCost
          ⟨[(0, 10)], (0, 1), 1/2, (0, 1), 1/2, 2, [1/2, 1/3]⟩ n =
            some p₁ ∧
        traj ℚ listRngCtr 9 wCost
          ⟨[(0, 10)], (0, 1), 1/2, (0, 1), 1/2, 2, ([1/2, 1/3], 0)⟩ n =
            some p₂ ∧
        Population.evalArg listRng 9 p₁ =
          Population.evalArg listRngCtr 9 p₂ ∧
        p₁.best_cost_cache = p₂.best_cost_cache ∧
        p₁.bestPair = p₂.bestPair ∧
        p₁.curr = p₂.curr ∧ p₁.best = p₂.best ∧
        p₁.num_cost_evaluations = p₂.num_cost_evaluations)) :=
  ⟨⟨listRng_sim_ctr, rfl⟩,
   claim_C7_determinism 9 wCost [(0, 10)] (0, 1) (0, 1) (1/2) (1/2) 2
     [1/2, 1/3] ([1/2, 1/3], 0) listRng_sim_ctr rfl⟩

end DiffEvol
